import Mathlib

/-!
ADC register interface of `mod_adc.c` / `mod_adc.h`.

A shallow embedding of the AVR ADC driver.  The six memory-mapped registers the
driver touches are the fields of `Regs`; every C function becomes a function
on `Regs`.  Register values are `uint8_t`, modelled as `Nat` below 256.  A C
expression over registers is evaluated in `Int`, as the integer promotion of C does,
with the twos-complement `Int.land`, `Int.lor` and `Int.lnot` of Mathlib, and is
converted back to a byte (`to_uint8`) when it is stored.

Enumerations are C integers: each enumerator is an `Int` constant, and a
function taking an enumeration takes an `Int`.
-/

namespace ModAdc

/-! ## Register file -/

/-- The memory-mapped ADC registers used by the driver. -/
structure Regs where
  ADMUX : Nat
  ADCSRA : Nat
  ADCSRB : Nat
  DIDR0 : Nat
  ADCL : Nat
  ADCH : Nat
deriving DecidableEq, Repr

/-- Every register holds a byte. -/
def Regs.wf (s : Regs) : Prop :=
  s.ADMUX < 256 ∧ s.ADCSRA < 256 ∧ s.ADCSRB < 256 ∧ s.DIDR0 < 256 ∧
    s.ADCL < 256 ∧ s.ADCH < 256

instance (s : Regs) : Decidable s.wf := by
  unfold Regs.wf
  infer_instance

/-- Bit `k` of a register value, as 0 or 1. -/
def regBit (x k : Nat) : Nat := x / 2 ^ k % 2

/-- The field of a register value from bit `lo` up to bit `hi`, as a number. -/
def regField (x hi lo : Nat) : Nat := x / 2 ^ lo % 2 ^ (hi + 1 - lo)

/-- Conversion of a C `int` to `uint8_t`, done when a register is stored. -/
def to_uint8 (v : Int) : Nat := (v % 256).toNat

/-! ## Bit positions (`<avr/io.h>`) -/

/-- Modelled from the spec: the macro `ADLAR` of `<avr/io.h>`, the alignment
bit of the multiplexer register (bit 5). -/
def ADLAR : Int := 5

/-- Modelled from the spec: the macro `ADEN` of `<avr/io.h>`, the enable bit of
the primary control/status register (bit 7). -/
def ADEN : Int := 7

/-- Modelled from the spec: the macro `ADSC` of `<avr/io.h>`, the
start-conversion bit (bit 6). -/
def ADSC : Int := 6

/-- Modelled from the spec: the macro `ADATE` of `<avr/io.h>`, the
auto-trigger-enable bit (bit 5). -/
def ADATE : Int := 5

/-- Modelled from the spec: the macro `ADIF` of `<avr/io.h>`, the completion
flag (bit 4). -/
def ADIF : Int := 4

/-- Modelled from the spec: the macro `ADIE` of `<avr/io.h>`, the
interrupt-enable bit (bit 3). -/
def ADIE : Int := 3

/-- Modelled from the spec: the store port of the primary control/status
register `ADCSRA`, which the hardware defines and the sources only use: the
value the register holds after the byte `v` is stored while it holds `old`.
Bit 4, the completion flag, is write-one-to-clear: a byte written with bit 4
set clears the flag, a byte written with bit 4 clear leaves the flag as it
was.  The other seven bits keep the byte written. -/
def write_ADCSRA (old v : Nat) : Nat :=
  if regBit v 4 = 1 then v - 16 else v + 16 * regBit old 4

/-- A store to `ADCSRA`.  No hardware event (a conversion starting or ending)
happens inside a store. -/
def store_ADCSRA (s : Regs) (v : Nat) : Regs :=
  { s with ADCSRA := write_ADCSRA s.ADCSRA v }

/-! ## Enumerations (`mod_adc.h`) -/

/-- The C enumeration `ref_voltage`. -/
abbrev ref_voltage := Int

def INTERNAL_VOLTAGE : ref_voltage := 0
def AREF : ref_voltage := 1
def AVCC : ref_voltage := 2

/-- The C enumeration `alignment`. -/
abbrev alignment := Int

def LEFT : alignment := 0
def RIGHT : alignment := 1

/-- The C enumeration `channel`. -/
abbrev channel := Int

def ADC0 : channel := 0
def ADC1 : channel := 1
def ADC2 : channel := 2
def ADC3 : channel := 3
def ADC4 : channel := 4
def ADC5 : channel := 5
def ADC6 : channel := 6
def ADC7 : channel := 7
def TEMPERATURE : channel := 8
def FIXED_VOLTAGE : channel := 9
def GND : channel := 10

/-- The C enumeration `prescale`; the first enumerator is 1. -/
abbrev prescale := Int

def P_2 : prescale := 1
def P_4 : prescale := 2
def P_8 : prescale := 3
def P_16 : prescale := 4
def P_32 : prescale := 5
def P_64 : prescale := 6
def P_128 : prescale := 7

/-- The C enumeration `trigger_source`. -/
abbrev trigger_source := Int

def FREE_RUNNING : trigger_source := 0
def ANALOG_COMPARATOR : trigger_source := 1
def EXTERNAL_INTERRUPT0 : trigger_source := 2
def TIMER0_COMP_A : trigger_source := 3
def TIMER0_OVERFLOW : trigger_source := 4
def TIMER1_COMP_B : trigger_source := 5
def TIMER1_OVERFLOW : trigger_source := 6
def TIMER1_CAPTURE : trigger_source := 7

/-! ## The driver (`mod_adc.c`) -/

/-- Function `set_reference_voltage`: a `switch` with three cases and no default. -/
def set_reference_voltage (v : ref_voltage) (s : Regs) : Regs :=
  if v = INTERNAL_VOLTAGE then
    { s with ADMUX := to_uint8 (Int.lor (Int.land s.ADMUX 0b00111111) 0b11000000) }
  else if v = AVCC then
    { s with ADMUX := to_uint8 (Int.lor (Int.land s.ADMUX 0b00111111) 0b01000000) }
  else if v = AREF then
    { s with ADMUX := to_uint8 (Int.land s.ADMUX 0b00111111) }
  else s

/-- Function `set_bit_alignment`: `ADMUX |= (1 << ADLAR)` for `LEFT`, otherwise
`ADMUX &= ~(1 << ADLAR)`. -/
def set_bit_alignment (a : alignment) (s : Regs) : Regs :=
  if a = LEFT then { s with ADMUX := to_uint8 (Int.lor s.ADMUX (1 <<< ADLAR)) }
  else { s with ADMUX := to_uint8 (Int.land s.ADMUX (Int.lnot (1 <<< ADLAR))) }

/-- Function `set_analog_channel`: `ADMUX = (ADMUX & 0b11110000) | (canal & 0b00001111)`. -/
def set_analog_channel (canal : channel) (s : Regs) : Regs :=
  { s with ADMUX :=
      to_uint8 (Int.lor (Int.land s.ADMUX 0b11110000) (Int.land canal 0b00001111)) }

/-- Function `enable_adc`: sets or clears `ADEN` in `ADCSRA` by read-modify-write. -/
def enable_adc (enable : Bool) (s : Regs) : Regs :=
  if enable then store_ADCSRA s (to_uint8 (Int.lor s.ADCSRA (1 <<< ADEN)))
  else store_ADCSRA s (to_uint8 (Int.land s.ADCSRA (Int.lnot (1 <<< ADEN))))

/-- Function `start_conversion`: `ADCSRA |= (1 << ADSC)`. -/
def start_conversion (s : Regs) : Regs :=
  store_ADCSRA s (to_uint8 (Int.lor s.ADCSRA (1 <<< ADSC)))

/-- Function `enable_auto_trigger`: sets or clears `ADATE` in `ADCSRA`. -/
def enable_auto_trigger (enable : Bool) (s : Regs) : Regs :=
  if enable then store_ADCSRA s (to_uint8 (Int.lor s.ADCSRA (1 <<< ADATE)))
  else store_ADCSRA s (to_uint8 (Int.land s.ADCSRA (Int.lnot (1 <<< ADATE))))

/-- Function `is_conversion_complete`: the returned flag and the register file after the
call.  When `ADIF` reads set, the function stores `ADCSRA | (1 << ADIF)`. -/
def is_conversion_complete (s : Regs) : Bool × Regs :=
  if Int.land s.ADCSRA (1 <<< ADIF) ≠ 0 then
    (true, store_ADCSRA s (to_uint8 (Int.lor s.ADCSRA (1 <<< ADIF))))
  else (false, s)

/-- Function `enable_interrupt`: sets or clears `ADIE` in `ADCSRA`. -/
def enable_interrupt (enable : Bool) (s : Regs) : Regs :=
  if enable then store_ADCSRA s (to_uint8 (Int.lor s.ADCSRA (1 <<< ADIE)))
  else store_ADCSRA s (to_uint8 (Int.land s.ADCSRA (Int.lnot (1 <<< ADIE))))

/-- Function `set_prescale`: `ADCSRA = (ADCSRA & 0b11111000) | (p & 0b00000111)`. -/
def set_prescale (p : prescale) (s : Regs) : Regs :=
  store_ADCSRA s
    (to_uint8 (Int.lor (Int.land s.ADCSRA 0b11111000) (Int.land p 0b00000111)))

/-- Function `set_auto_trigger_source`:
`ADCSRB = (ADCSRB & 0b11111000) | (s & 0b00000111)`. -/
def set_auto_trigger_source (src : trigger_source) (s : Regs) : Regs :=
  { s with ADCSRB :=
      to_uint8 (Int.lor (Int.land s.ADCSRB 0b11111000) (Int.land src 0b00000111)) }

/-- Function `disable_digital_input`: guarded by `canal >= ADC0 && canal <= ADC5`. -/
def disable_digital_input (canal : channel) (disable : Bool) (s : Regs) : Regs :=
  if canal ≥ ADC0 ∧ canal ≤ ADC5 then
    if disable then { s with DIDR0 := to_uint8 (Int.lor s.DIDR0 (1 <<< canal)) }
    else { s with DIDR0 := to_uint8 (Int.land s.DIDR0 (Int.lnot (1 <<< canal))) }
  else s

/-- Function `adc_init`: the five setters in the order of the source. -/
def adc_init (ref : ref_voltage) (alin : alignment) (presc : prescale) (ch : channel)
    (s : Regs) : Regs :=
  enable_adc true
    (set_analog_channel ch
      (set_prescale presc
        (set_bit_alignment alin
          (set_reference_voltage ref s))))

/-! ## The blocking read and the simulated converter -/

/-- Conversion of a C `int` to `uint16_t`, done when `read_adc` returns. -/
def to_uint16 (v : Int) : Nat := (v % 65536).toNat

/-- The two result registers, as entries of the log of result-register reads. -/
inductive ResultReg where
  | ADCL
  | ADCH
deriving DecidableEq, Repr

/-- What a returned call of `read_adc` leaves behind: the `uint16_t` returned,
the number of calls of `is_conversion_complete` it made, the result registers
it read, in the order of the reads, and the register file. -/
structure ReadResult where
  value : Nat
  polls : Nat
  reads : List ResultReg
  regs : Regs
deriving DecidableEq, Repr

/-- Modelled from the spec: the converter finishing a conversion with the
10-bit result `r`, a hardware event outside the sources.  It raises the
completion flag (bit 4 of ADCSRA), drops the conversion-start bit (bit 6) and
packs `r` into the result registers, left-justified when the alignment bit
(bit 5 of ADMUX) is set and right-justified otherwise. -/
def complete_conversion (r : Nat) (s : Regs) : Regs :=
  { s with
    ADCSRA := s.ADCSRA - 64 * regBit s.ADCSRA 6 + 16 * (1 - regBit s.ADCSRA 4)
    ADCL := if regBit s.ADMUX 5 = 1 then r % 4 * 64 else r % 256
    ADCH := if regBit s.ADMUX 5 = 1 then r / 4 % 256 else r / 256 % 256 }

/-- Simulated hardware that finishes a conversion with result `r` just before
the `k`-th poll and is idle before every other poll. -/
def hw_conversion (k r : Nat) (i : Nat) (s : Regs) : Regs :=
  if i = k then complete_conversion r s else s

/-- Simulated hardware that never finishes a conversion. -/
def hw_idle (_ : Nat) (s : Regs) : Regs := s

/-- The register file the `i`-th poll finds when no earlier poll has seen the
flag: the hardware events before polls `1 .. i` applied to `s`.  A poll that
sees the flag clear stores nothing. -/
def hw_run (hw : Nat → Regs → Regs) (s : Regs) : Nat → Regs
  | 0 => s
  | i + 1 => hw (i + 1) (hw_run hw s i)

/-- The loop `while (!is_conversion_complete());` of `read_adc`.  `hw i` is
what the converter does to the registers just before the `i`-th poll, `done`
counts the polls already made, and `fuel` bounds the polls still allowed:
`none` means the loop is still spinning when the fuel is used up.  A returned
result is the number of polls made and the register file. -/
def wait_complete (hw : Nat → Regs → Regs) : Nat → Nat → Regs → Option (Nat × Regs)
  | 0, _, _ => none
  | fuel + 1, done, s =>
    if (is_conversion_complete (hw (done + 1) s)).1 then
      some (done + 1, (is_conversion_complete (hw (done + 1) s)).2)
    else wait_complete hw fuel (done + 1) (is_conversion_complete (hw (done + 1) s)).2

/-- A volatile read of a result register: the byte the register holds, and the
log of result-register reads with this read added at its end.  Every use of
`ADCL` or `ADCH` in the sources is one call of this function. -/
def read_result (which : ResultReg) (s : Regs) (log : List ResultReg) :
    Nat × List ResultReg :=
  match which with
  | ResultReg.ADCL => (s.ADCL, log ++ [ResultReg.ADCL])
  | ResultReg.ADCH => (s.ADCH, log ++ [ResultReg.ADCH])

/-- Function `read_adc`, run against the simulated hardware `hw` for at most
`fuel` polls.  The alignment bit is read first, then `start_conversion`, then
the polling loop; the left-aligned path is `return ADCH;`, the right-aligned
path is `low = ADCL; high = ADCH; return (high << 8) | low;`.  The log of
result-register reads starts empty and is threaded through the reads in the
order in which the source makes them. -/
def read_adc (hw : Nat → Regs → Regs) (fuel : Nat) (s : Regs) : Option ReadResult :=
  let is_left_alignment : Bool := decide (Int.land s.ADMUX (1 <<< ADLAR) ≠ 0)
  match wait_complete hw fuel 0 (start_conversion s) with
  | none => none
  | some (polls, s1) =>
    if is_left_alignment then
      let high := read_result ResultReg.ADCH s1 []
      some ⟨to_uint16 high.1, polls, high.2, s1⟩
    else
      let low := read_result ResultReg.ADCL s1 []
      let high := read_result ResultReg.ADCH s1 low.2
      some ⟨to_uint16 (Int.lor ((high.1 : Int) <<< (8 : Int)) low.1), polls, high.2, s1⟩

/-! ## Arithmetic of the bitwise operators on bytes -/

/-- Clearing the bits of `b` in `a`, written with `xor` and `and`. -/
theorem ldiff_eq_xor_and (a b : Nat) : Nat.ldiff a b = a ^^^ (a &&& b) := by
  apply Nat.eq_of_testBit_eq
  intro i
  simp only [Nat.testBit_ldiff, Nat.testBit_xor, Nat.testBit_and]
  cases a.testBit i <;> cases b.testBit i <;> rfl

/-- The C expression `a & ~b` on two non-negative integers. -/
theorem land_lnot_natCast (a b : Nat) :
    Int.land (a : Int) (Int.lnot (b : Int)) = ((a ^^^ (a &&& b) : Nat) : Int) := by
  show ((Nat.ldiff a b : Nat) : Int) = _
  rw [ldiff_eq_xor_and]

/-- The C expression `a & b` on two non-negative integers. -/
theorem land_natCast (a b : Nat) : Int.land (a : Int) (b : Int) = ((a &&& b : Nat) : Int) :=
  rfl

/-- The C expression `a | b` on two non-negative integers. -/
theorem lor_natCast (a b : Nat) : Int.lor (a : Int) (b : Int) = ((a ||| b : Nat) : Int) :=
  rfl

/-- Storing a non-negative integer keeps its low eight bits. -/
theorem to_uint8_natCast (m : Nat) : to_uint8 (m : Int) = m % 256 := by
  unfold to_uint8
  omega

/-- The C expression `c & 0b00001111` is `c mod 16`, for every integer. -/
theorem land_low4 (c : Int) : Int.land c 0b00001111 = c % 16 := by
  have hx : ∀ j, j < 16 → 15 ^^^ j = 15 - j := by decide
  cases c with
  | ofNat n =>
    show ((n &&& 15 : Nat) : Int) = _
    rw [show (15 : Nat) = 2 ^ 4 - 1 from rfl, Nat.and_pow_two_sub_one_eq_mod]
    norm_num
  | negSucc n =>
    show ((Nat.ldiff 15 n : Nat) : Int) = _
    have h1 : 15 &&& n = n % 16 := by
      rw [Nat.and_comm, show (15 : Nat) = 2 ^ 4 - 1 from rfl, Nat.and_pow_two_sub_one_eq_mod]
    rw [ldiff_eq_xor_and, h1, hx _ (Nat.mod_lt _ (by norm_num)), Int.negSucc_eq]
    omega

/-- The C expression `c & 0b00000111` is `c mod 8`, for every integer. -/
theorem land_low3 (c : Int) : Int.land c 0b00000111 = c % 8 := by
  have hx : ∀ j, j < 8 → 7 ^^^ j = 7 - j := by decide
  cases c with
  | ofNat n =>
    show ((n &&& 7 : Nat) : Int) = _
    rw [show (7 : Nat) = 2 ^ 3 - 1 from rfl, Nat.and_pow_two_sub_one_eq_mod]
    norm_num
  | negSucc n =>
    show ((Nat.ldiff 7 n : Nat) : Int) = _
    have h1 : 7 &&& n = n % 8 := by
      rw [Nat.and_comm, show (7 : Nat) = 2 ^ 3 - 1 from rfl, Nat.and_pow_two_sub_one_eq_mod]
    rw [ldiff_eq_xor_and, h1, hx _ (Nat.mod_lt _ (by norm_num)), Int.negSucc_eq]
    omega

/-- The byte stored by `R = (R & mask) | e` when `e` is not negative. -/
theorem to_uint8_lor_land (r mask : Nat) (e : Int) (he : 0 ≤ e) :
    to_uint8 (Int.lor (Int.land (r : Int) (mask : Int)) e)
      = ((r &&& mask) ||| e.toNat) % 256 := by
  obtain ⟨m, rfl⟩ := Int.eq_ofNat_of_zero_le he
  rw [land_natCast, lor_natCast, to_uint8_natCast, Int.toNat_ofNat]

/-- The byte stored by `R |= (1 << k)`. -/
theorem to_uint8_set_bit (r k : Nat) :
    to_uint8 (Int.lor (r : Int) (1 <<< (k : Int))) = (r ||| 2 ^ k) % 256 := by
  rw [Int.one_shiftLeft, lor_natCast, to_uint8_natCast]

/-- The byte stored by `R &= ~(1 << k)`. -/
theorem to_uint8_clear_bit (r k : Nat) :
    to_uint8 (Int.land (r : Int) (Int.lnot (1 <<< (k : Int))))
      = (r ^^^ (r &&& 2 ^ k)) % 256 := by
  rw [Int.one_shiftLeft, land_lnot_natCast, to_uint8_natCast]

/-! ## Closed forms of the driver functions -/

theorem set_bit_alignment_eq (a : alignment) (s : Regs) :
    set_bit_alignment a s =
      { s with ADMUX := if a = LEFT then (s.ADMUX ||| 32) % 256
                        else (s.ADMUX ^^^ (s.ADMUX &&& 32)) % 256 } := by
  unfold set_bit_alignment
  split
  · rw [show (1 : Int) <<< ADLAR = 1 <<< ((5 : Nat) : Int) from rfl, to_uint8_set_bit]
    rfl
  · rw [show (1 : Int) <<< ADLAR = 1 <<< ((5 : Nat) : Int) from rfl, to_uint8_clear_bit]
    rfl

theorem set_analog_channel_eq (canal : channel) (s : Regs) :
    set_analog_channel canal s =
      { s with ADMUX := ((s.ADMUX &&& 0b11110000) ||| (canal % 16).toNat) % 256 } := by
  unfold set_analog_channel
  rw [land_low4, show (0b11110000 : Int) = ((0b11110000 : Nat) : Int) from rfl,
    to_uint8_lor_land _ _ _ (Int.emod_nonneg _ (by norm_num))]

theorem set_prescale_eq (p : prescale) (s : Regs) :
    set_prescale p s =
      store_ADCSRA s (((s.ADCSRA &&& 0b11111000) ||| (p % 8).toNat) % 256) := by
  unfold set_prescale
  rw [land_low3, show (0b11111000 : Int) = ((0b11111000 : Nat) : Int) from rfl,
    to_uint8_lor_land _ _ _ (Int.emod_nonneg _ (by norm_num))]

theorem set_auto_trigger_source_eq (src : trigger_source) (s : Regs) :
    set_auto_trigger_source src s =
      { s with ADCSRB := ((s.ADCSRB &&& 0b11111000) ||| (src % 8).toNat) % 256 } := by
  unfold set_auto_trigger_source
  rw [land_low3, show (0b11111000 : Int) = ((0b11111000 : Nat) : Int) from rfl,
    to_uint8_lor_land _ _ _ (Int.emod_nonneg _ (by norm_num))]

theorem enable_adc_eq (enable : Bool) (s : Regs) :
    enable_adc enable s =
      store_ADCSRA s (if enable then (s.ADCSRA ||| 128) % 256
                      else (s.ADCSRA ^^^ (s.ADCSRA &&& 128)) % 256) := by
  unfold enable_adc
  cases enable
  · rw [show (1 : Int) <<< ADEN = 1 <<< ((7 : Nat) : Int) from rfl, to_uint8_clear_bit]
    rfl
  · rw [show (1 : Int) <<< ADEN = 1 <<< ((7 : Nat) : Int) from rfl, to_uint8_set_bit]
    rfl

theorem enable_auto_trigger_eq (enable : Bool) (s : Regs) :
    enable_auto_trigger enable s =
      store_ADCSRA s (if enable then (s.ADCSRA ||| 32) % 256
                      else (s.ADCSRA ^^^ (s.ADCSRA &&& 32)) % 256) := by
  unfold enable_auto_trigger
  cases enable
  · rw [show (1 : Int) <<< ADATE = 1 <<< ((5 : Nat) : Int) from rfl, to_uint8_clear_bit]
    rfl
  · rw [show (1 : Int) <<< ADATE = 1 <<< ((5 : Nat) : Int) from rfl, to_uint8_set_bit]
    rfl

theorem enable_interrupt_eq (enable : Bool) (s : Regs) :
    enable_interrupt enable s =
      store_ADCSRA s (if enable then (s.ADCSRA ||| 8) % 256
                      else (s.ADCSRA ^^^ (s.ADCSRA &&& 8)) % 256) := by
  unfold enable_interrupt
  cases enable
  · rw [show (1 : Int) <<< ADIE = 1 <<< ((3 : Nat) : Int) from rfl, to_uint8_clear_bit]
    rfl
  · rw [show (1 : Int) <<< ADIE = 1 <<< ((3 : Nat) : Int) from rfl, to_uint8_set_bit]
    rfl

theorem start_conversion_eq (s : Regs) :
    start_conversion s = store_ADCSRA s ((s.ADCSRA ||| 64) % 256) := by
  unfold start_conversion
  rw [show (1 : Int) <<< ADSC = 1 <<< ((6 : Nat) : Int) from rfl, to_uint8_set_bit]
  rfl

theorem is_conversion_complete_eq (s : Regs) :
    is_conversion_complete s =
      if s.ADCSRA &&& 16 ≠ 0 then (true, store_ADCSRA s ((s.ADCSRA ||| 16) % 256))
      else (false, s) := by
  unfold is_conversion_complete
  rw [show (1 : Int) <<< ADIF = 1 <<< ((4 : Nat) : Int) from rfl, to_uint8_set_bit,
    Int.one_shiftLeft, land_natCast]
  by_cases h : s.ADCSRA &&& 16 = 0
  · have h2 : ((s.ADCSRA &&& 2 ^ 4 : Nat) : Int) = 0 := by exact_mod_cast h
    simp [h, h2]
  · have h2 : ((s.ADCSRA &&& 2 ^ 4 : Nat) : Int) ≠ 0 := by exact_mod_cast h
    simp [h, h2]

theorem disable_digital_input_eq (k : Nat) (hk : k ≤ 5) (disable : Bool) (s : Regs) :
    disable_digital_input (k : Int) disable s =
      { s with DIDR0 := if disable then (s.DIDR0 ||| 2 ^ k) % 256
                        else (s.DIDR0 ^^^ (s.DIDR0 &&& 2 ^ k)) % 256 } := by
  unfold disable_digital_input
  have hg : ((k : Int) ≥ ADC0 ∧ (k : Int) ≤ ADC5) := by
    unfold ADC0 ADC5
    omega
  rw [if_pos hg, to_uint8_set_bit, to_uint8_clear_bit]
  cases disable <;> rfl

/-! ## `set_reference_voltage` -/

set_option maxRecDepth 100000 in
/-- C1: for every byte in ADMUX and every reference voltage `v` among
INTERNAL_VOLTAGE, AREF and AVCC, after `set_reference_voltage v` bits 7:6 of
ADMUX hold the code of `v` (Internal 0b11, AVCC 0b01, AREF 0b00) and bits 5:0
of ADMUX are as before the call. -/
theorem set_reference_voltage_writes_refs (s : Regs) (v : ref_voltage)
    (hs : s.ADMUX < 256) (hv : v = INTERNAL_VOLTAGE ∨ v = AREF ∨ v = AVCC) :
    regField (set_reference_voltage v s).ADMUX 7 6
        = (if v = INTERNAL_VOLTAGE then 0b11 else if v = AVCC then 0b01 else 0b00) ∧
      regField (set_reference_voltage v s).ADMUX 5 0 = regField s.ADMUX 5 0 := by
  have key : ∀ n, n < 256 → ∀ r : Fin 3,
      regField (set_reference_voltage r.val ⟨n, 0, 0, 0, 0, 0⟩).ADMUX 7 6
          = (if (r.val : Int) = INTERNAL_VOLTAGE then 0b11
              else if (r.val : Int) = AVCC then 0b01 else 0b00) ∧
        regField (set_reference_voltage r.val ⟨n, 0, 0, 0, 0, 0⟩).ADMUX 5 0
          = regField n 5 0 := by
    decide
  rcases hv with rfl | rfl | rfl
  · exact key s.ADMUX hs 0
  · exact key s.ADMUX hs 1
  · exact key s.ADMUX hs 2

/-- Witness for C1: ADMUX = 0b00110101 and AVCC. -/
theorem set_reference_voltage_writes_refs_witness :
    regField (set_reference_voltage AVCC ⟨0b00110101, 0, 0, 0, 0, 0⟩).ADMUX 7 6 = 0b01 ∧
      regField (set_reference_voltage AVCC ⟨0b00110101, 0, 0, 0, 0, 0⟩).ADMUX 5 0
        = 0b110101 :=
  set_reference_voltage_writes_refs ⟨0b00110101, 0, 0, 0, 0, 0⟩ AVCC (by decide)
    (Or.inr (Or.inr rfl))

/-! ## `set_bit_alignment` -/

set_option maxRecDepth 100000 in
/-- C2: for every byte in ADMUX and every alignment `a` (LEFT or RIGHT), after
`set_bit_alignment a` bit 5 of ADMUX is 1 for LEFT and 0 for RIGHT, and bits
7:6 and 4:0 of ADMUX are as before the call. -/
theorem set_bit_alignment_writes_adlar (s : Regs) (a : alignment)
    (hs : s.ADMUX < 256) (ha : a = LEFT ∨ a = RIGHT) :
    regBit (set_bit_alignment a s).ADMUX 5 = (if a = LEFT then 1 else 0) ∧
      regField (set_bit_alignment a s).ADMUX 7 6 = regField s.ADMUX 7 6 ∧
      regField (set_bit_alignment a s).ADMUX 4 0 = regField s.ADMUX 4 0 := by
  have key : ∀ n, n < 256 →
      (regBit ((n ||| 32) % 256) 5 = 1 ∧
        regField ((n ||| 32) % 256) 7 6 = regField n 7 6 ∧
        regField ((n ||| 32) % 256) 4 0 = regField n 4 0) ∧
      (regBit ((n ^^^ (n &&& 32)) % 256) 5 = 0 ∧
        regField ((n ^^^ (n &&& 32)) % 256) 7 6 = regField n 7 6 ∧
        regField ((n ^^^ (n &&& 32)) % 256) 4 0 = regField n 4 0) := by
    decide
  rw [set_bit_alignment_eq]
  rcases ha with rfl | rfl
  · rw [if_pos rfl]
    exact (key _ hs).1
  · have hne : ¬ (RIGHT = LEFT) := by decide
    rw [if_neg hne]
    exact (key _ hs).2

/-- Witness for C2: ADMUX = 0b11111111 and RIGHT. -/
theorem set_bit_alignment_writes_adlar_witness :
    regBit (set_bit_alignment RIGHT ⟨0b11111111, 0, 0, 0, 0, 0⟩).ADMUX 5 = 0 ∧
      regField (set_bit_alignment RIGHT ⟨0b11111111, 0, 0, 0, 0, 0⟩).ADMUX 7 6 = 0b11 ∧
      regField (set_bit_alignment RIGHT ⟨0b11111111, 0, 0, 0, 0, 0⟩).ADMUX 4 0
        = 0b11111 :=
  set_bit_alignment_writes_adlar ⟨0b11111111, 0, 0, 0, 0, 0⟩ RIGHT (by decide)
    (Or.inr rfl)

/-! ## `set_analog_channel` -/

set_option maxRecDepth 100000 in
/-- C3: for every byte in ADMUX and every channel `c` among the 11 enumerators
ADC0 .. GND (ordinals 0 to 10), after `set_analog_channel c` bits 3:0 of ADMUX
equal the ordinal of `c` and bits 7:4 of ADMUX are as before the call. -/
theorem set_analog_channel_writes_mux (s : Regs) (c : channel)
    (hs : s.ADMUX < 256) (hc : ADC0 ≤ c ∧ c ≤ GND) :
    (regField (set_analog_channel c s).ADMUX 3 0 : Int) = c ∧
      regField (set_analog_channel c s).ADMUX 7 4 = regField s.ADMUX 7 4 := by
  have key : ∀ n, n < 256 → ∀ k : Fin 11,
      regField (((n &&& 0b11110000) ||| ((k.val : Int) % 16).toNat) % 256) 3 0 = k.val ∧
        regField (((n &&& 0b11110000) ||| ((k.val : Int) % 16).toNat) % 256) 7 4
          = regField n 7 4 := by
    decide
  obtain ⟨h0, h1⟩ := hc
  unfold ADC0 at h0
  unfold GND at h1
  lift c to Nat using h0 with m
  have h1i : (m : Int) ≤ 10 := h1
  have hm : m < 11 := by omega
  rw [set_analog_channel_eq]
  obtain ⟨k1, k2⟩ := key _ hs ⟨m, hm⟩
  exact ⟨by exact_mod_cast k1, k2⟩

/-- Witness for C3: ADMUX = 0b10101111 and TEMPERATURE (ordinal 8). -/
theorem set_analog_channel_writes_mux_witness :
    (regField (set_analog_channel TEMPERATURE ⟨0b10101111, 0, 0, 0, 0, 0⟩).ADMUX 3 0 : Int)
        = TEMPERATURE ∧
      regField (set_analog_channel TEMPERATURE ⟨0b10101111, 0, 0, 0, 0, 0⟩).ADMUX 7 4
        = 0b1010 :=
  set_analog_channel_writes_mux ⟨0b10101111, 0, 0, 0, 0, 0⟩ TEMPERATURE (by decide)
    (by decide)

/-! ## `set_prescale` -/

set_option maxRecDepth 100000 in
/-- What `set_prescale` does to ADCSRA for every byte and every integer `p`:
bits 2:0 become `p mod 8`, bits 7, 6, 5 and 3 are kept, bit 4 reads 0
afterwards whatever it was, and the register still holds a byte. -/
theorem set_prescale_effect (s : Regs) (p : prescale) (hs : s.ADCSRA < 256) :
    (set_prescale p s).ADCSRA < 256 ∧
      (regField (set_prescale p s).ADCSRA 2 0 : Int) = p % 8 ∧
      regBit (set_prescale p s).ADCSRA 7 = regBit s.ADCSRA 7 ∧
      regBit (set_prescale p s).ADCSRA 6 = regBit s.ADCSRA 6 ∧
      regBit (set_prescale p s).ADCSRA 5 = regBit s.ADCSRA 5 ∧
      regBit (set_prescale p s).ADCSRA 3 = regBit s.ADCSRA 3 ∧
      regBit (set_prescale p s).ADCSRA 4 = 0 := by
  have key : ∀ n, n < 256 → ∀ k, k < 8 →
      write_ADCSRA n (((n &&& 0b11111000) ||| k) % 256) < 256 ∧
        regField (write_ADCSRA n (((n &&& 0b11111000) ||| k) % 256)) 2 0 = k ∧
        regBit (write_ADCSRA n (((n &&& 0b11111000) ||| k) % 256)) 7 = regBit n 7 ∧
        regBit (write_ADCSRA n (((n &&& 0b11111000) ||| k) % 256)) 6 = regBit n 6 ∧
        regBit (write_ADCSRA n (((n &&& 0b11111000) ||| k) % 256)) 5 = regBit n 5 ∧
        regBit (write_ADCSRA n (((n &&& 0b11111000) ||| k) % 256)) 3 = regBit n 3 ∧
        regBit (write_ADCSRA n (((n &&& 0b11111000) ||| k) % 256)) 4 = 0 := by
    decide
  have h0 : 0 ≤ p % 8 := Int.emod_nonneg _ (by norm_num)
  have h1 : p % 8 < 8 := Int.emod_lt_of_pos _ (by norm_num)
  obtain ⟨m, hm⟩ := Int.eq_ofNat_of_zero_le h0
  have hm8 : m < 8 := by omega
  rw [set_prescale_eq, hm, Int.toNat_ofNat]
  obtain ⟨k0, k1, k2, k3, k4, k5, k6⟩ := key _ hs m hm8
  exact ⟨k0, by exact_mod_cast k1, k2, k3, k4, k5, k6⟩

/-- C4 as stated fails: with the converter enabled and the completion flag
pending (ADCSRA = 0b10010111), `set_prescale P_8` leaves ADCSRA = 0b10000011,
so bit 4 went from 1 to 0 and bits 7:3 are not as before the call. -/
theorem set_prescale_drops_pending_flag :
    regBit (⟨0, 0b10010111, 0, 0, 0, 0⟩ : Regs).ADCSRA 4 = 1 ∧
      (set_prescale P_8 ⟨0, 0b10010111, 0, 0, 0, 0⟩).ADCSRA = 0b10000011 ∧
      regBit (set_prescale P_8 ⟨0, 0b10010111, 0, 0, 0, 0⟩).ADCSRA 4 = 0 ∧
      regField (set_prescale P_8 ⟨0, 0b10010111, 0, 0, 0, 0⟩).ADCSRA 7 3
        ≠ regField (⟨0, 0b10010111, 0, 0, 0, 0⟩ : Regs).ADCSRA 7 3 := by
  decide

set_option maxRecDepth 100000 in
/-- C4, amended: for every byte in ADCSRA and every prescaler `p` among
P_2 .. P_128 (codes 1 to 7), after `set_prescale p` bits 2:0 of ADCSRA equal
the code of `p`, bits 7:5 and bit 3 are as before the call, and the completion
flag, bit 4, reads 0: it stays clear when it was clear and a pending flag is
cleared, because the store writes it back as 1.  When the flag is clear on
entry, bits 7:3 are all as before. -/
theorem set_prescale_writes_adps (s : Regs) (p : prescale) (hs : s.ADCSRA < 256)
    (hp : P_2 ≤ p ∧ p ≤ P_128) :
    (regField (set_prescale p s).ADCSRA 2 0 : Int) = p ∧
      regField (set_prescale p s).ADCSRA 7 5 = regField s.ADCSRA 7 5 ∧
      regBit (set_prescale p s).ADCSRA 3 = regBit s.ADCSRA 3 ∧
      regBit (set_prescale p s).ADCSRA 4 = 0 ∧
      (regBit s.ADCSRA 4 = 0 →
        regField (set_prescale p s).ADCSRA 7 3 = regField s.ADCSRA 7 3) := by
  have key : ∀ n, n < 256 → ∀ k : Fin 8,
      regField (write_ADCSRA n (((n &&& 0b11111000) ||| ((k.val : Int) % 8).toNat) % 256))
          2 0 = k.val ∧
        regField (write_ADCSRA n (((n &&& 0b11111000) ||| ((k.val : Int) % 8).toNat) % 256))
          7 5 = regField n 7 5 ∧
        regBit (write_ADCSRA n (((n &&& 0b11111000) ||| ((k.val : Int) % 8).toNat) % 256))
          3 = regBit n 3 ∧
        regBit (write_ADCSRA n (((n &&& 0b11111000) ||| ((k.val : Int) % 8).toNat) % 256))
          4 = 0 ∧
        (regBit n 4 = 0 →
          regField
            (write_ADCSRA n (((n &&& 0b11111000) ||| ((k.val : Int) % 8).toNat) % 256))
            7 3 = regField n 7 3) := by
    decide
  obtain ⟨h0, h1⟩ := hp
  unfold P_2 at h0
  unfold P_128 at h1
  have h0n : (0 : Int) ≤ p := le_trans (by norm_num) h0
  lift p to Nat using h0n with m
  have h1i : (m : Int) ≤ 7 := h1
  have hm : m < 8 := by omega
  rw [set_prescale_eq]
  obtain ⟨k1, k2, k3, k4, k5⟩ := key _ hs ⟨m, hm⟩
  exact ⟨by exact_mod_cast k1, k2, k3, k4, k5⟩

/-- Witness for C4 amended: converter enabled, flag pending, P_8. -/
theorem set_prescale_writes_adps_witness :
    (regField (set_prescale P_8 ⟨0, 0b10010111, 0, 0, 0, 0⟩).ADCSRA 2 0 : Int) = P_8 ∧
      regField (set_prescale P_8 ⟨0, 0b10010111, 0, 0, 0, 0⟩).ADCSRA 7 5 = 0b100 ∧
      regBit (set_prescale P_8 ⟨0, 0b10010111, 0, 0, 0, 0⟩).ADCSRA 4 = 0 :=
  have h := set_prescale_writes_adps ⟨0, 0b10010111, 0, 0, 0, 0⟩ P_8 (by decide)
    (by decide)
  ⟨h.1, h.2.1, h.2.2.2.1⟩

/-! ## `is_conversion_complete` -/

set_option maxRecDepth 100000 in
/-- C5: in every state whose completion flag (bit 4 of ADCSRA) is set, the
first call of `is_conversion_complete` returns true and leaves the flag clear,
and a second call with no flag-set event in between returns false and changes
nothing: true exactly once per flag-set event. -/
theorem is_conversion_complete_true_once (s : Regs) (hs : s.ADCSRA < 256)
    (hf : regBit s.ADCSRA 4 = 1) :
    (is_conversion_complete s).1 = true ∧
      regBit (is_conversion_complete s).2.ADCSRA 4 = 0 ∧
      is_conversion_complete (is_conversion_complete s).2
        = (false, (is_conversion_complete s).2) := by
  have key : ∀ n, n < 256 → regBit n 4 = 1 →
      n &&& 16 ≠ 0 ∧ regBit (write_ADCSRA n ((n ||| 16) % 256)) 4 = 0 ∧
        write_ADCSRA n ((n ||| 16) % 256) &&& 16 = 0 := by
    decide
  obtain ⟨k1, k2, k3⟩ := key _ hs hf
  have e1 : is_conversion_complete s
      = (true, store_ADCSRA s ((s.ADCSRA ||| 16) % 256)) := by
    rw [is_conversion_complete_eq, if_pos k1]
  have e2 : is_conversion_complete (store_ADCSRA s ((s.ADCSRA ||| 16) % 256))
      = (false, store_ADCSRA s ((s.ADCSRA ||| 16) % 256)) := by
    rw [is_conversion_complete_eq]
    have h3 : ¬ ((store_ADCSRA s ((s.ADCSRA ||| 16) % 256)).ADCSRA &&& 16 ≠ 0) := by
      intro h
      exact h k3
    rw [if_neg h3]
  rw [e1]
  exact ⟨rfl, k2, e2⟩

/-- Witness for C5: ADCSRA = 0b10010111, flag set. -/
theorem is_conversion_complete_true_once_witness :
    (is_conversion_complete ⟨0, 0b10010111, 0, 0, 0, 0⟩).1 = true ∧
      regBit (is_conversion_complete ⟨0, 0b10010111, 0, 0, 0, 0⟩).2.ADCSRA 4 = 0 ∧
      is_conversion_complete (is_conversion_complete ⟨0, 0b10010111, 0, 0, 0, 0⟩).2
        = (false, (is_conversion_complete ⟨0, 0b10010111, 0, 0, 0, 0⟩).2) :=
  is_conversion_complete_true_once ⟨0, 0b10010111, 0, 0, 0, 0⟩ (by decide) (by decide)

set_option maxRecDepth 100000 in
/-- C6: in every state, `is_conversion_complete` returns true if and only if
bit 4 of ADCSRA is set on entry, and when it returns false the whole register
file (ADMUX, ADCSRA, ADCSRB, DIDR0 and the result registers) is as before. -/
theorem is_conversion_complete_iff_flag (s : Regs) (hs : s.ADCSRA < 256) :
    ((is_conversion_complete s).1 = true ↔ regBit s.ADCSRA 4 = 1) ∧
      ((is_conversion_complete s).1 = false → (is_conversion_complete s).2 = s) := by
  have key : ∀ n, n < 256 → (n &&& 16 ≠ 0 ↔ regBit n 4 = 1) := by
    decide
  rw [is_conversion_complete_eq]
  by_cases h : s.ADCSRA &&& 16 ≠ 0
  · rw [if_pos h]
    exact ⟨⟨fun _ => (key _ hs).1 h, fun _ => rfl⟩, fun hc => Bool.noConfusion hc⟩
  · rw [if_neg h]
    exact ⟨⟨fun hc => Bool.noConfusion hc, fun hb => absurd ((key _ hs).2 hb) h⟩,
      fun _ => rfl⟩

/-- Witness for C6: ADCSRA = 0b10000111, flag clear; the call returns false
and the register file is as before. -/
theorem is_conversion_complete_iff_flag_witness :
    (is_conversion_complete ⟨3, 0b10000111, 1, 2, 0, 0⟩).1 = false ∧
      (is_conversion_complete ⟨3, 0b10000111, 1, 2, 0, 0⟩).2
        = ⟨3, 0b10000111, 1, 2, 0, 0⟩ :=
  have h := is_conversion_complete_iff_flag ⟨3, 0b10000111, 1, 2, 0, 0⟩ (by decide)
  have hf : (is_conversion_complete ⟨3, 0b10000111, 1, 2, 0, 0⟩).1 = false :=
    Bool.eq_false_iff.2 (fun ht => absurd (h.1.1 ht) (by decide))
  ⟨hf, h.2 hf⟩

/-! ## `disable_digital_input` -/

set_option maxRecDepth 100000 in
/-- C7: for every byte in DIDR0, every channel `c` among the six analog pins
ADC0 .. ADC5 and every boolean `d`, after `disable_digital_input c d` the bit
of DIDR0 numbered by the ordinal of `c` equals `d` (1 for true, 0 for false)
and every other bit of DIDR0 is as before the call. -/
theorem disable_digital_input_writes_pin (s : Regs) (c : channel) (d : Bool)
    (hs : s.DIDR0 < 256) (hc : ADC0 ≤ c ∧ c ≤ ADC5) :
    regBit (disable_digital_input c d s).DIDR0 c.toNat = (if d then 1 else 0) ∧
      ∀ k, k < 8 → k ≠ c.toNat →
        regBit (disable_digital_input c d s).DIDR0 k = regBit s.DIDR0 k := by
  have key : ∀ n, n < 256 → ∀ j : Fin 6,
      (regBit ((n ||| 2 ^ j.val) % 256) j.val = 1 ∧
        ∀ k, k < 8 → k ≠ j.val → regBit ((n ||| 2 ^ j.val) % 256) k = regBit n k) ∧
      (regBit ((n ^^^ (n &&& 2 ^ j.val)) % 256) j.val = 0 ∧
        ∀ k, k < 8 → k ≠ j.val →
          regBit ((n ^^^ (n &&& 2 ^ j.val)) % 256) k = regBit n k) := by
    decide
  obtain ⟨h0, h1⟩ := hc
  unfold ADC0 at h0
  unfold ADC5 at h1
  lift c to Nat using h0 with m
  have h1i : (m : Int) ≤ 5 := h1
  have hm : m ≤ 5 := by omega
  rw [disable_digital_input_eq m hm, Int.toNat_ofNat]
  cases d
  · exact (key _ hs ⟨m, by omega⟩).2
  · exact (key _ hs ⟨m, by omega⟩).1

/-- Witness for C7: DIDR0 = 0b11001010, channel ADC3, re-enabling the input;
bit 3 is cleared and bit 7 is kept. -/
theorem disable_digital_input_writes_pin_witness :
    regBit (disable_digital_input ADC3 false ⟨0, 0, 0, 0b11001010, 0, 0⟩).DIDR0
        (ADC3 : Int).toNat = (if false then 1 else 0) ∧
      regBit (disable_digital_input ADC3 false ⟨0, 0, 0, 0b11001010, 0, 0⟩).DIDR0 7
        = regBit (⟨0, 0, 0, 0b11001010, 0, 0⟩ : Regs).DIDR0 7 :=
  ⟨(disable_digital_input_writes_pin ⟨0, 0, 0, 0b11001010, 0, 0⟩ ADC3 false (by decide)
      (by decide)).1,
    (disable_digital_input_writes_pin ⟨0, 0, 0, 0b11001010, 0, 0⟩ ADC3 false (by decide)
      (by decide)).2 7 (by decide) (by decide)⟩

/-- C8: for every register state, every integer `c` that is none of
ADC0 .. ADC5 (ADC6, ADC7, TEMPERATURE, FIXED_VOLTAGE, GND, or a value outside
the enumeration) and every boolean `d`, `disable_digital_input c d` returns the
register file unchanged; the function has no result through which an error
could be reported. -/
theorem disable_digital_input_ignores_other_channels (s : Regs) (c : channel) (d : Bool)
    (hc : c ≠ ADC0 ∧ c ≠ ADC1 ∧ c ≠ ADC2 ∧ c ≠ ADC3 ∧ c ≠ ADC4 ∧ c ≠ ADC5) :
    disable_digital_input c d s = s := by
  have aux : ∀ x : Int, x ≠ 0 ∧ x ≠ 1 ∧ x ≠ 2 ∧ x ≠ 3 ∧ x ≠ 4 ∧ x ≠ 5 →
      ¬ (x ≥ 0 ∧ x ≤ 5) := by
    intro x hx
    omega
  have hg : ¬ (c ≥ ADC0 ∧ c ≤ ADC5) := aux c hc
  unfold disable_digital_input
  rw [if_neg hg]

/-- Witness for C8: GND with every register non-zero. -/
theorem disable_digital_input_ignores_other_channels_witness :
    disable_digital_input GND true ⟨1, 2, 3, 4, 5, 6⟩ = ⟨1, 2, 3, 4, 5, 6⟩ :=
  disable_digital_input_ignores_other_channels ⟨1, 2, 3, 4, 5, 6⟩ GND true (by decide)

/-! ## `adc_init` -/

theorem set_reference_voltage_eq (v : ref_voltage) (s : Regs) :
    set_reference_voltage v s =
      { s with ADMUX :=
          if v = INTERNAL_VOLTAGE then ((s.ADMUX &&& 0b00111111) ||| 0b11000000) % 256
          else if v = AVCC then ((s.ADMUX &&& 0b00111111) ||| 0b01000000) % 256
          else if v = AREF then (s.ADMUX &&& 0b00111111) % 256
          else s.ADMUX } := by
  unfold set_reference_voltage
  split_ifs
  · rw [show (0b00111111 : Int) = ((0b00111111 : Nat) : Int) from rfl,
      to_uint8_lor_land _ _ _ (by norm_num)]
    rfl
  · rw [show (0b00111111 : Int) = ((0b00111111 : Nat) : Int) from rfl,
      to_uint8_lor_land _ _ _ (by norm_num)]
    rfl
  · rw [show (0b00111111 : Int) = ((0b00111111 : Nat) : Int) from rfl, land_natCast,
      to_uint8_natCast]
  · rfl

/-- ADMUX after `adc_init` is written by the three ADMUX setters only. -/
theorem adc_init_ADMUX (ref : ref_voltage) (alin : alignment) (presc : prescale)
    (ch : channel) (s : Regs) :
    (adc_init ref alin presc ch s).ADMUX
      = (set_analog_channel ch (set_bit_alignment alin (set_reference_voltage ref s))).ADMUX := by
  unfold adc_init
  rw [enable_adc_eq, set_analog_channel_eq, set_prescale_eq, set_analog_channel_eq]
  rfl

/-- ADCSRA after `adc_init` is written by `set_prescale` and `enable_adc` only. -/
theorem adc_init_ADCSRA (ref : ref_voltage) (alin : alignment) (presc : prescale)
    (ch : channel) (s : Regs) :
    (adc_init ref alin presc ch s).ADCSRA = (enable_adc true (set_prescale presc s)).ADCSRA := by
  unfold adc_init
  rw [enable_adc_eq, set_analog_channel_eq, set_prescale_eq, set_bit_alignment_eq,
    set_reference_voltage_eq, enable_adc_eq, set_prescale_eq]
  rfl

/-- The registers `adc_init` never writes. -/
theorem adc_init_frame (ref : ref_voltage) (alin : alignment) (presc : prescale)
    (ch : channel) (s : Regs) :
    (adc_init ref alin presc ch s).ADCSRB = s.ADCSRB ∧
      (adc_init ref alin presc ch s).DIDR0 = s.DIDR0 ∧
      (adc_init ref alin presc ch s).ADCL = s.ADCL ∧
      (adc_init ref alin presc ch s).ADCH = s.ADCH := by
  unfold adc_init
  rw [enable_adc_eq, set_analog_channel_eq, set_prescale_eq, set_bit_alignment_eq,
    set_reference_voltage_eq]
  exact ⟨rfl, rfl, rfl, rfl⟩

/-- C9 as stated fails: started with bit 4 of ADMUX set (ADMUX = 0b00010000),
`adc_init AVCC RIGHT P_8 ADC2` leaves ADMUX = 0b01010010, not 0b01000010; no
setter writes bit 4 of ADMUX. -/
theorem adc_init_keeps_admux_bit4 :
    (adc_init AVCC RIGHT P_8 ADC2 ⟨0b00010000, 0, 0, 0, 0, 0⟩).ADMUX = 0b01010010 ∧
      (adc_init AVCC RIGHT P_8 ADC2 ⟨0b00010000, 0, 0, 0, 0, 0⟩).ADMUX ≠ 0b01000010 := by
  rw [adc_init_ADMUX, set_analog_channel_eq, set_bit_alignment_eq, set_reference_voltage_eq]
  decide

set_option maxRecDepth 100000 in
/-- C9, amended: from every state whose ADMUX has bit 4 clear (the reset state
among them), `adc_init AVCC RIGHT P_8 ADC2` leaves ADMUX = 0b01000010, the
enable bit (bit 7) of ADCSRA equal to 1 and the prescaler bits 2:0 of ADCSRA
equal to 0b011. -/
theorem adc_init_scenario (s : Regs) (hm : s.ADMUX < 256) (ha : s.ADCSRA < 256)
    (h4 : regBit s.ADMUX 4 = 0) :
    (adc_init AVCC RIGHT P_8 ADC2 s).ADMUX = 0b01000010 ∧
      regBit (adc_init AVCC RIGHT P_8 ADC2 s).ADCSRA 7 = 1 ∧
      regField (adc_init AVCC RIGHT P_8 ADC2 s).ADCSRA 2 0 = 0b011 := by
  have key1 : ∀ n, n < 256 → regBit n 4 = 0 →
      (((((n &&& 0b00111111) ||| 0b01000000) % 256
            ^^^ ((((n &&& 0b00111111) ||| 0b01000000) % 256) &&& 32)) % 256
          &&& 0b11110000) ||| 2) % 256 = 0b01000010 := by
    decide
  have key2 : ∀ n, n < 256 →
      regBit (write_ADCSRA (write_ADCSRA n (((n &&& 0b11111000) ||| 3) % 256))
          ((write_ADCSRA n (((n &&& 0b11111000) ||| 3) % 256) ||| 128) % 256)) 7 = 1 ∧
        regField (write_ADCSRA (write_ADCSRA n (((n &&& 0b11111000) ||| 3) % 256))
          ((write_ADCSRA n (((n &&& 0b11111000) ||| 3) % 256) ||| 128) % 256)) 2 0
          = 0b011 := by
    decide
  have hr : ¬ (RIGHT = LEFT) := by decide
  have hv1 : ¬ (AVCC = INTERNAL_VOLTAGE) := by decide
  refine ⟨?_, ?_⟩
  · rw [adc_init_ADMUX, set_analog_channel_eq, set_bit_alignment_eq,
      set_reference_voltage_eq, if_neg hr, if_neg hv1, if_pos rfl]
    exact key1 _ hm h4
  · rw [adc_init_ADCSRA, enable_adc_eq, set_prescale_eq, if_pos rfl]
    exact key2 _ ha

/-- Witness for C9 amended: the reset state, every register zero. -/
theorem adc_init_scenario_witness :
    (adc_init AVCC RIGHT P_8 ADC2 ⟨0, 0, 0, 0, 0, 0⟩).ADMUX = 0b01000010 ∧
      regBit (adc_init AVCC RIGHT P_8 ADC2 ⟨0, 0, 0, 0, 0, 0⟩).ADCSRA 7 = 1 ∧
      regField (adc_init AVCC RIGHT P_8 ADC2 ⟨0, 0, 0, 0, 0, 0⟩).ADCSRA 2 0 = 0b011 :=
  adc_init_scenario ⟨0, 0, 0, 0, 0, 0⟩ (by decide) (by decide) (by decide)

set_option maxRecDepth 100000 in
/-- What `set_reference_voltage` does to ADMUX for every byte and every
enumerator: bits 7:6 become the code, bits 5, 4 and 3:0 are kept, and the
register still holds a byte. -/
theorem set_reference_voltage_effect (s : Regs) (r : Nat) (hs : s.ADMUX < 256)
    (hr : r < 3) :
    (set_reference_voltage (r : Int) s).ADMUX < 256 ∧
      regField (set_reference_voltage (r : Int) s).ADMUX 7 6
        = (if (r : Int) = INTERNAL_VOLTAGE then 0b11
            else if (r : Int) = AVCC then 0b01 else 0b00) ∧
      regBit (set_reference_voltage (r : Int) s).ADMUX 5 = regBit s.ADMUX 5 ∧
      regBit (set_reference_voltage (r : Int) s).ADMUX 4 = regBit s.ADMUX 4 ∧
      regField (set_reference_voltage (r : Int) s).ADMUX 3 0 = regField s.ADMUX 3 0 := by
  have key : ∀ n, n < 256 → ∀ r : Nat, r < 3 →
      (set_reference_voltage (r : Int) ⟨n, 0, 0, 0, 0, 0⟩).ADMUX < 256 ∧
        regField (set_reference_voltage (r : Int) ⟨n, 0, 0, 0, 0, 0⟩).ADMUX 7 6
          = (if (r : Int) = INTERNAL_VOLTAGE then 0b11
              else if (r : Int) = AVCC then 0b01 else 0b00) ∧
        regBit (set_reference_voltage (r : Int) ⟨n, 0, 0, 0, 0, 0⟩).ADMUX 5 = regBit n 5 ∧
        regBit (set_reference_voltage (r : Int) ⟨n, 0, 0, 0, 0, 0⟩).ADMUX 4 = regBit n 4 ∧
        regField (set_reference_voltage (r : Int) ⟨n, 0, 0, 0, 0, 0⟩).ADMUX 3 0
          = regField n 3 0 := by
    decide
  have e : (set_reference_voltage (r : Int) s).ADMUX
      = (set_reference_voltage (r : Int) ⟨s.ADMUX, 0, 0, 0, 0, 0⟩).ADMUX := by
    rw [set_reference_voltage_eq, set_reference_voltage_eq]
  rw [e]
  exact key _ hs r hr

set_option maxRecDepth 100000 in
/-- What `set_bit_alignment` does to ADMUX for every byte: bit 5 becomes 1 for
LEFT and 0 for any other value, bits 7:6, 4 and 3:0 are kept, and the register
still holds a byte. -/
theorem set_bit_alignment_effect (s : Regs) (a : alignment) (hs : s.ADMUX < 256) :
    (set_bit_alignment a s).ADMUX < 256 ∧
      regBit (set_bit_alignment a s).ADMUX 5 = (if a = LEFT then 1 else 0) ∧
      regField (set_bit_alignment a s).ADMUX 7 6 = regField s.ADMUX 7 6 ∧
      regBit (set_bit_alignment a s).ADMUX 4 = regBit s.ADMUX 4 ∧
      regField (set_bit_alignment a s).ADMUX 3 0 = regField s.ADMUX 3 0 := by
  have key : ∀ n, n < 256 →
      ((n ||| 32) % 256 < 256 ∧ regBit ((n ||| 32) % 256) 5 = 1 ∧
        regField ((n ||| 32) % 256) 7 6 = regField n 7 6 ∧
        regBit ((n ||| 32) % 256) 4 = regBit n 4 ∧
        regField ((n ||| 32) % 256) 3 0 = regField n 3 0) ∧
      ((n ^^^ (n &&& 32)) % 256 < 256 ∧ regBit ((n ^^^ (n &&& 32)) % 256) 5 = 0 ∧
        regField ((n ^^^ (n &&& 32)) % 256) 7 6 = regField n 7 6 ∧
        regBit ((n ^^^ (n &&& 32)) % 256) 4 = regBit n 4 ∧
        regField ((n ^^^ (n &&& 32)) % 256) 3 0 = regField n 3 0) := by
    decide
  rw [set_bit_alignment_eq]
  by_cases h : a = LEFT
  · simp only [if_pos h]
    exact (key _ hs).1
  · simp only [if_neg h]
    exact (key _ hs).2

set_option maxRecDepth 100000 in
/-- What `set_analog_channel` does to ADMUX for every byte and every integer
`c`: bits 3:0 become `c mod 16`, bits 7:6, 5 and 4 are kept, and the register
still holds a byte. -/
theorem set_analog_channel_effect (s : Regs) (c : channel) (hs : s.ADMUX < 256) :
    (set_analog_channel c s).ADMUX < 256 ∧
      (regField (set_analog_channel c s).ADMUX 3 0 : Int) = c % 16 ∧
      regField (set_analog_channel c s).ADMUX 7 6 = regField s.ADMUX 7 6 ∧
      regBit (set_analog_channel c s).ADMUX 5 = regBit s.ADMUX 5 ∧
      regBit (set_analog_channel c s).ADMUX 4 = regBit s.ADMUX 4 := by
  have key : ∀ n, n < 256 → ∀ k, k < 16 →
      ((n &&& 0b11110000) ||| k) % 256 < 256 ∧
        regField (((n &&& 0b11110000) ||| k) % 256) 3 0 = k ∧
        regField (((n &&& 0b11110000) ||| k) % 256) 7 6 = regField n 7 6 ∧
        regBit (((n &&& 0b11110000) ||| k) % 256) 5 = regBit n 5 ∧
        regBit (((n &&& 0b11110000) ||| k) % 256) 4 = regBit n 4 := by
    decide
  have h0 : 0 ≤ c % 16 := Int.emod_nonneg _ (by norm_num)
  have h1 : c % 16 < 16 := Int.emod_lt_of_pos _ (by norm_num)
  obtain ⟨m, hm⟩ := Int.eq_ofNat_of_zero_le h0
  have hm16 : m < 16 := by omega
  rw [set_analog_channel_eq, hm, Int.toNat_ofNat]
  obtain ⟨k0, k1, k2, k3, k4⟩ := key _ hs m hm16
  exact ⟨k0, by exact_mod_cast k1, k2, k3, k4⟩

set_option maxRecDepth 100000 in
/-- What `enable_adc` does to ADCSRA for every byte: bit 7 becomes the
argument, bits 6, 5, 3 and 2:0 are kept, bit 4 reads 0 afterwards whatever it
was, and the register still holds a byte. -/
theorem enable_adc_effect (s : Regs) (enable : Bool) (hs : s.ADCSRA < 256) :
    (enable_adc enable s).ADCSRA < 256 ∧
      regBit (enable_adc enable s).ADCSRA 7 = (if enable then 1 else 0) ∧
      regBit (enable_adc enable s).ADCSRA 6 = regBit s.ADCSRA 6 ∧
      regBit (enable_adc enable s).ADCSRA 5 = regBit s.ADCSRA 5 ∧
      regBit (enable_adc enable s).ADCSRA 3 = regBit s.ADCSRA 3 ∧
      regField (enable_adc enable s).ADCSRA 2 0 = regField s.ADCSRA 2 0 ∧
      regBit (enable_adc enable s).ADCSRA 4 = 0 := by
  have key : ∀ n, n < 256 →
      (write_ADCSRA n ((n ||| 128) % 256) < 256 ∧
        regBit (write_ADCSRA n ((n ||| 128) % 256)) 7 = 1 ∧
        regBit (write_ADCSRA n ((n ||| 128) % 256)) 6 = regBit n 6 ∧
        regBit (write_ADCSRA n ((n ||| 128) % 256)) 5 = regBit n 5 ∧
        regBit (write_ADCSRA n ((n ||| 128) % 256)) 3 = regBit n 3 ∧
        regField (write_ADCSRA n ((n ||| 128) % 256)) 2 0 = regField n 2 0 ∧
        regBit (write_ADCSRA n ((n ||| 128) % 256)) 4 = 0) ∧
      (write_ADCSRA n ((n ^^^ (n &&& 128)) % 256) < 256 ∧
        regBit (write_ADCSRA n ((n ^^^ (n &&& 128)) % 256)) 7 = 0 ∧
        regBit (write_ADCSRA n ((n ^^^ (n &&& 128)) % 256)) 6 = regBit n 6 ∧
        regBit (write_ADCSRA n ((n ^^^ (n &&& 128)) % 256)) 5 = regBit n 5 ∧
        regBit (write_ADCSRA n ((n ^^^ (n &&& 128)) % 256)) 3 = regBit n 3 ∧
        regField (write_ADCSRA n ((n ^^^ (n &&& 128)) % 256)) 2 0 = regField n 2 0 ∧
        regBit (write_ADCSRA n ((n ^^^ (n &&& 128)) % 256)) 4 = 0) := by
    decide
  rw [enable_adc_eq]
  cases enable
  · exact (key _ hs).2
  · exact (key _ hs).1

/-- C10, amended: for every register file of bytes, every enumerator `ref`,
`presc` and `ch` and every `alin` (any value other than LEFT acts as RIGHT),
after `adc_init`: ADMUX bits 7:6 hold the code of `ref`, bit 5 is 1 exactly for
LEFT, bits 3:0 hold the ordinal of `ch`; ADCSRA bits 2:0 hold the code of
`presc` and bit 7 is 1; ADMUX bit 4, ADCSRA bits 6, 5 and 3, ADCSRB and DIDR0
are as before the call; and the completion flag, ADCSRA bit 4, reads 0
afterwards: it stays clear when it was clear and a pending flag is cleared. -/
theorem adc_init_effect (s : Regs) (ref : ref_voltage) (alin : alignment)
    (presc : prescale) (ch : channel) (hm : s.ADMUX < 256) (ha : s.ADCSRA < 256)
    (href : INTERNAL_VOLTAGE ≤ ref ∧ ref ≤ AVCC)
    (hpresc : P_2 ≤ presc ∧ presc ≤ P_128) (hch : ADC0 ≤ ch ∧ ch ≤ GND) :
    (regField (adc_init ref alin presc ch s).ADMUX 7 6
        = (if ref = INTERNAL_VOLTAGE then 0b11 else if ref = AVCC then 0b01 else 0b00) ∧
      regBit (adc_init ref alin presc ch s).ADMUX 5 = (if alin = LEFT then 1 else 0) ∧
      (regField (adc_init ref alin presc ch s).ADMUX 3 0 : Int) = ch ∧
      regBit (adc_init ref alin presc ch s).ADMUX 4 = regBit s.ADMUX 4) ∧
    ((regField (adc_init ref alin presc ch s).ADCSRA 2 0 : Int) = presc ∧
      regBit (adc_init ref alin presc ch s).ADCSRA 7 = 1 ∧
      regBit (adc_init ref alin presc ch s).ADCSRA 6 = regBit s.ADCSRA 6 ∧
      regBit (adc_init ref alin presc ch s).ADCSRA 5 = regBit s.ADCSRA 5 ∧
      regBit (adc_init ref alin presc ch s).ADCSRA 3 = regBit s.ADCSRA 3 ∧
      regBit (adc_init ref alin presc ch s).ADCSRA 4 = 0) ∧
    (adc_init ref alin presc ch s).ADCSRB = s.ADCSRB ∧
    (adc_init ref alin presc ch s).DIDR0 = s.DIDR0 := by
  obtain ⟨r0, r1⟩ := href
  obtain ⟨p0, p1⟩ := hpresc
  obtain ⟨c0, c1⟩ := hch
  unfold INTERNAL_VOLTAGE at r0
  unfold AVCC at r1
  unfold P_2 at p0
  unfold P_128 at p1
  unfold ADC0 at c0
  unfold GND at c1
  lift ref to Nat using r0 with r
  have r1i : (r : Int) ≤ 2 := r1
  have hr : r < 3 := by omega
  have auxp : ∀ x : Int, 1 ≤ x → x ≤ 7 → x % 8 = x := by
    intro x h1 h2
    omega
  have auxc : ∀ x : Int, 0 ≤ x → x ≤ 10 → x % 16 = x := by
    intro x h1 h2
    omega
  have hp : presc % 8 = presc := auxp presc p0 p1
  have hc : ch % 16 = ch := auxc ch c0 c1
  obtain ⟨f1, f2, _, _⟩ := adc_init_frame (r : Int) alin presc ch s
  obtain ⟨x0, x1, x2, x3, _⟩ := set_reference_voltage_effect s r hm hr
  obtain ⟨y0, y1, y2, y3, _⟩ :=
    set_bit_alignment_effect (set_reference_voltage (r : Int) s) alin x0
  obtain ⟨_, z1, z2, z3, z4⟩ :=
    set_analog_channel_effect
      (set_bit_alignment alin (set_reference_voltage (r : Int) s)) ch y0
  obtain ⟨u0, u1, _, u3, u4, u5, _⟩ := set_prescale_effect s presc ha
  obtain ⟨_, v1, v2, v3, v4, v5, v6⟩ := enable_adc_effect (set_prescale presc s) true u0
  refine ⟨?_, ?_, f1, f2⟩
  · rw [adc_init_ADMUX]
    exact ⟨by rw [z2, y2, x1], by rw [z3, y1], by rw [z1, hc], by rw [z4, y3, x3]⟩
  · rw [adc_init_ADCSRA]
    refine ⟨?_, v1, by rw [v2, u3], by rw [v3, u4], by rw [v4, u5], v6⟩
    rw [v5, u1, hp]

/-- Witness for C10 amended: flag pending, all registers in use; afterwards
the enable bit is 1, bit 6 is kept, the flag reads 0 and DIDR0 is kept. -/
theorem adc_init_effect_witness :
    regBit (adc_init AREF LEFT P_64 GND ⟨0b10111111, 0b01111000, 7, 9, 0, 0⟩).ADCSRA 7
        = 1 ∧
      regBit (adc_init AREF LEFT P_64 GND ⟨0b10111111, 0b01111000, 7, 9, 0, 0⟩).ADCSRA 6
        = regBit (⟨0b10111111, 0b01111000, 7, 9, 0, 0⟩ : Regs).ADCSRA 6 ∧
      regBit (adc_init AREF LEFT P_64 GND ⟨0b10111111, 0b01111000, 7, 9, 0, 0⟩).ADCSRA 4
        = 0 ∧
      (adc_init AREF LEFT P_64 GND ⟨0b10111111, 0b01111000, 7, 9, 0, 0⟩).DIDR0 = 9 :=
  have h := adc_init_effect ⟨0b10111111, 0b01111000, 7, 9, 0, 0⟩ AREF LEFT P_64 GND
    (by decide) (by decide) (by decide) (by decide) (by decide)
  ⟨h.2.1.2.1, h.2.1.2.2.1, h.2.1.2.2.2.2.2, h.2.2.2⟩

/-- C10 as stated fails: with the converter enabled and the completion flag
pending (ADCSRA = 0b10010111), `adc_init AVCC RIGHT P_8 ADC2` leaves
ADCSRA = 0b10000011, so bits 6:3 of ADCSRA went from 0b0010 to 0b0000 and are
not as before the call. -/
theorem adc_init_drops_pending_flag :
    regField (⟨0, 0b10010111, 0, 0, 0, 0⟩ : Regs).ADCSRA 6 3 = 0b0010 ∧
      (adc_init AVCC RIGHT P_8 ADC2 ⟨0, 0b10010111, 0, 0, 0, 0⟩).ADCSRA = 0b10000011 ∧
      regField (adc_init AVCC RIGHT P_8 ADC2 ⟨0, 0b10010111, 0, 0, 0, 0⟩).ADCSRA 6 3
        = 0b0000 ∧
      regField (adc_init AVCC RIGHT P_8 ADC2 ⟨0, 0b10010111, 0, 0, 0, 0⟩).ADCSRA 6 3
        ≠ regField (⟨0, 0b10010111, 0, 0, 0, 0⟩ : Regs).ADCSRA 6 3 := by
  rw [adc_init_ADCSRA, enable_adc_eq, set_prescale_eq]
  decide

/-! ## `set_auto_trigger_source` -/

set_option maxRecDepth 100000 in
/-- C14: for every byte in ADCSRB and every trigger source `src` among the
eight enumerators (ordinals 0 to 7), after `set_auto_trigger_source src` bits
2:0 of ADCSRB equal the ordinal of `src` and bits 7:3 of ADCSRB are as before
the call. -/
theorem set_auto_trigger_source_writes_adts (s : Regs) (src : trigger_source)
    (hs : s.ADCSRB < 256) (hsrc : FREE_RUNNING ≤ src ∧ src ≤ TIMER1_CAPTURE) :
    (regField (set_auto_trigger_source src s).ADCSRB 2 0 : Int) = src ∧
      regField (set_auto_trigger_source src s).ADCSRB 7 3 = regField s.ADCSRB 7 3 := by
  have key : ∀ n, n < 256 → ∀ k : Fin 8,
      regField (((n &&& 0b11111000) ||| ((k.val : Int) % 8).toNat) % 256) 2 0 = k.val ∧
        regField (((n &&& 0b11111000) ||| ((k.val : Int) % 8).toNat) % 256) 7 3
          = regField n 7 3 := by
    decide
  obtain ⟨h0, h1⟩ := hsrc
  unfold FREE_RUNNING at h0
  unfold TIMER1_CAPTURE at h1
  lift src to Nat using h0 with m
  have h1i : (m : Int) ≤ 7 := h1
  have hm : m < 8 := by omega
  rw [set_auto_trigger_source_eq]
  obtain ⟨k1, k2⟩ := key _ hs ⟨m, hm⟩
  exact ⟨by exact_mod_cast k1, k2⟩

/-- Witness for C14: ADCSRB = 0b01000101 and TIMER1_OVERFLOW (ordinal 6). -/
theorem set_auto_trigger_source_writes_adts_witness :
    (regField (set_auto_trigger_source TIMER1_OVERFLOW ⟨0, 0, 0b01000101, 0, 0, 0⟩).ADCSRB
        2 0 : Int) = TIMER1_OVERFLOW ∧
      regField (set_auto_trigger_source TIMER1_OVERFLOW ⟨0, 0, 0b01000101, 0, 0, 0⟩).ADCSRB
        7 3 = 0b01000 :=
  set_auto_trigger_source_writes_adts ⟨0, 0, 0b01000101, 0, 0, 0⟩ TIMER1_OVERFLOW
    (by decide) (by decide)

/-! ## The boolean setters of ADCSRA and `start_conversion` -/

set_option maxRecDepth 100000 in
/-- What `enable_auto_trigger` does to ADCSRA for every byte: bit 5 becomes the
argument, bits 7, 6, 3 and 2:0 are kept, bit 4 reads 0 afterwards whatever it
was, and the register still holds a byte. -/
theorem enable_auto_trigger_effect (s : Regs) (enable : Bool) (hs : s.ADCSRA < 256) :
    (enable_auto_trigger enable s).ADCSRA < 256 ∧
      regBit (enable_auto_trigger enable s).ADCSRA 5 = (if enable then 1 else 0) ∧
      regBit (enable_auto_trigger enable s).ADCSRA 7 = regBit s.ADCSRA 7 ∧
      regBit (enable_auto_trigger enable s).ADCSRA 6 = regBit s.ADCSRA 6 ∧
      regBit (enable_auto_trigger enable s).ADCSRA 3 = regBit s.ADCSRA 3 ∧
      regField (enable_auto_trigger enable s).ADCSRA 2 0 = regField s.ADCSRA 2 0 ∧
      regBit (enable_auto_trigger enable s).ADCSRA 4 = 0 := by
  have key : ∀ n, n < 256 →
      (write_ADCSRA n ((n ||| 32) % 256) < 256 ∧
        regBit (write_ADCSRA n ((n ||| 32) % 256)) 5 = 1 ∧
        regBit (write_ADCSRA n ((n ||| 32) % 256)) 7 = regBit n 7 ∧
        regBit (write_ADCSRA n ((n ||| 32) % 256)) 6 = regBit n 6 ∧
        regBit (write_ADCSRA n ((n ||| 32) % 256)) 3 = regBit n 3 ∧
        regField (write_ADCSRA n ((n ||| 32) % 256)) 2 0 = regField n 2 0 ∧
        regBit (write_ADCSRA n ((n ||| 32) % 256)) 4 = 0) ∧
      (write_ADCSRA n ((n ^^^ (n &&& 32)) % 256) < 256 ∧
        regBit (write_ADCSRA n ((n ^^^ (n &&& 32)) % 256)) 5 = 0 ∧
        regBit (write_ADCSRA n ((n ^^^ (n &&& 32)) % 256)) 7 = regBit n 7 ∧
        regBit (write_ADCSRA n ((n ^^^ (n &&& 32)) % 256)) 6 = regBit n 6 ∧
        regBit (write_ADCSRA n ((n ^^^ (n &&& 32)) % 256)) 3 = regBit n 3 ∧
        regField (write_ADCSRA n ((n ^^^ (n &&& 32)) % 256)) 2 0 = regField n 2 0 ∧
        regBit (write_ADCSRA n ((n ^^^ (n &&& 32)) % 256)) 4 = 0) := by
    decide
  rw [enable_auto_trigger_eq]
  cases enable
  · exact (key _ hs).2
  · exact (key _ hs).1

set_option maxRecDepth 100000 in
/-- What `enable_interrupt` does to ADCSRA for every byte: bit 3 becomes the
argument, bits 7, 6, 5 and 2:0 are kept, bit 4 reads 0 afterwards whatever it
was, and the register still holds a byte. -/
theorem enable_interrupt_effect (s : Regs) (enable : Bool) (hs : s.ADCSRA < 256) :
    (enable_interrupt enable s).ADCSRA < 256 ∧
      regBit (enable_interrupt enable s).ADCSRA 3 = (if enable then 1 else 0) ∧
      regBit (enable_interrupt enable s).ADCSRA 7 = regBit s.ADCSRA 7 ∧
      regBit (enable_interrupt enable s).ADCSRA 6 = regBit s.ADCSRA 6 ∧
      regBit (enable_interrupt enable s).ADCSRA 5 = regBit s.ADCSRA 5 ∧
      regField (enable_interrupt enable s).ADCSRA 2 0 = regField s.ADCSRA 2 0 ∧
      regBit (enable_interrupt enable s).ADCSRA 4 = 0 := by
  have key : ∀ n, n < 256 →
      (write_ADCSRA n ((n ||| 8) % 256) < 256 ∧
        regBit (write_ADCSRA n ((n ||| 8) % 256)) 3 = 1 ∧
        regBit (write_ADCSRA n ((n ||| 8) % 256)) 7 = regBit n 7 ∧
        regBit (write_ADCSRA n ((n ||| 8) % 256)) 6 = regBit n 6 ∧
        regBit (write_ADCSRA n ((n ||| 8) % 256)) 5 = regBit n 5 ∧
        regField (write_ADCSRA n ((n ||| 8) % 256)) 2 0 = regField n 2 0 ∧
        regBit (write_ADCSRA n ((n ||| 8) % 256)) 4 = 0) ∧
      (write_ADCSRA n ((n ^^^ (n &&& 8)) % 256) < 256 ∧
        regBit (write_ADCSRA n ((n ^^^ (n &&& 8)) % 256)) 3 = 0 ∧
        regBit (write_ADCSRA n ((n ^^^ (n &&& 8)) % 256)) 7 = regBit n 7 ∧
        regBit (write_ADCSRA n ((n ^^^ (n &&& 8)) % 256)) 6 = regBit n 6 ∧
        regBit (write_ADCSRA n ((n ^^^ (n &&& 8)) % 256)) 5 = regBit n 5 ∧
        regField (write_ADCSRA n ((n ^^^ (n &&& 8)) % 256)) 2 0 = regField n 2 0 ∧
        regBit (write_ADCSRA n ((n ^^^ (n &&& 8)) % 256)) 4 = 0) := by
    decide
  rw [enable_interrupt_eq]
  cases enable
  · exact (key _ hs).2
  · exact (key _ hs).1

/-- C15 as stated fails: with the completion flag pending
(ADCSRA = 0b10010111), `enable_adc true`, `enable_auto_trigger true` and
`enable_interrupt true` each leave bit 4 of ADCSRA at 0, so a bit other than
the one the setter owns is not as before the call. -/
theorem boolean_setters_drop_pending_flag :
    regBit (⟨0, 0b10010111, 0, 0, 0, 0⟩ : Regs).ADCSRA 4 = 1 ∧
      (enable_adc true ⟨0, 0b10010111, 0, 0, 0, 0⟩).ADCSRA = 0b10000111 ∧
      (enable_auto_trigger true ⟨0, 0b10010111, 0, 0, 0, 0⟩).ADCSRA = 0b10100111 ∧
      (enable_interrupt true ⟨0, 0b10010111, 0, 0, 0, 0⟩).ADCSRA = 0b10001111 ∧
      regBit (enable_adc true ⟨0, 0b10010111, 0, 0, 0, 0⟩).ADCSRA 4
        ≠ regBit (⟨0, 0b10010111, 0, 0, 0, 0⟩ : Regs).ADCSRA 4 ∧
      regBit (enable_auto_trigger true ⟨0, 0b10010111, 0, 0, 0, 0⟩).ADCSRA 4
        ≠ regBit (⟨0, 0b10010111, 0, 0, 0, 0⟩ : Regs).ADCSRA 4 ∧
      regBit (enable_interrupt true ⟨0, 0b10010111, 0, 0, 0, 0⟩).ADCSRA 4
        ≠ regBit (⟨0, 0b10010111, 0, 0, 0, 0⟩ : Regs).ADCSRA 4 := by
  decide

/-- C15, amended: for every byte in ADCSRA and every boolean `enable`, each of the
three boolean setters writes its own bit (bit 7 for `enable_adc`, bit 5 for
`enable_auto_trigger`, bit 3 for `enable_interrupt`) and keeps every other bit
of ADCSRA except the completion flag: bit 4 reads 0 after the call, staying
clear when it was clear and cleared when it was pending, because the
read-modify-write store writes it back as 1. -/
theorem boolean_setters_write_own_bit (s : Regs) (enable : Bool) (hs : s.ADCSRA < 256) :
    (regBit (enable_adc enable s).ADCSRA 7 = (if enable then 1 else 0) ∧
      regBit (enable_adc enable s).ADCSRA 6 = regBit s.ADCSRA 6 ∧
      regBit (enable_adc enable s).ADCSRA 5 = regBit s.ADCSRA 5 ∧
      regBit (enable_adc enable s).ADCSRA 3 = regBit s.ADCSRA 3 ∧
      regField (enable_adc enable s).ADCSRA 2 0 = regField s.ADCSRA 2 0 ∧
      regBit (enable_adc enable s).ADCSRA 4 = 0) ∧
    (regBit (enable_auto_trigger enable s).ADCSRA 5 = (if enable then 1 else 0) ∧
      regBit (enable_auto_trigger enable s).ADCSRA 7 = regBit s.ADCSRA 7 ∧
      regBit (enable_auto_trigger enable s).ADCSRA 6 = regBit s.ADCSRA 6 ∧
      regBit (enable_auto_trigger enable s).ADCSRA 3 = regBit s.ADCSRA 3 ∧
      regField (enable_auto_trigger enable s).ADCSRA 2 0 = regField s.ADCSRA 2 0 ∧
      regBit (enable_auto_trigger enable s).ADCSRA 4 = 0) ∧
    (regBit (enable_interrupt enable s).ADCSRA 3 = (if enable then 1 else 0) ∧
      regBit (enable_interrupt enable s).ADCSRA 7 = regBit s.ADCSRA 7 ∧
      regBit (enable_interrupt enable s).ADCSRA 6 = regBit s.ADCSRA 6 ∧
      regBit (enable_interrupt enable s).ADCSRA 5 = regBit s.ADCSRA 5 ∧
      regField (enable_interrupt enable s).ADCSRA 2 0 = regField s.ADCSRA 2 0 ∧
      regBit (enable_interrupt enable s).ADCSRA 4 = 0) :=
  ⟨(enable_adc_effect s enable hs).2, (enable_auto_trigger_effect s enable hs).2,
    (enable_interrupt_effect s enable hs).2⟩

/-- Witness for C15 amended: flag pending, interrupt enable switched on; bit 3
is set, bit 7 is kept and bit 4 reads 0. -/
theorem boolean_setters_write_own_bit_witness :
    regBit (enable_interrupt true ⟨0, 0b10010111, 0, 0, 0, 0⟩).ADCSRA 3 = 1 ∧
      regBit (enable_interrupt true ⟨0, 0b10010111, 0, 0, 0, 0⟩).ADCSRA 7
        = regBit (⟨0, 0b10010111, 0, 0, 0, 0⟩ : Regs).ADCSRA 7 ∧
      regBit (enable_interrupt true ⟨0, 0b10010111, 0, 0, 0, 0⟩).ADCSRA 4 = 0 :=
  have h := (boolean_setters_write_own_bit ⟨0, 0b10010111, 0, 0, 0, 0⟩ true
    (by decide)).2.2
  ⟨h.1, h.2.1, h.2.2.2.2.2⟩

set_option maxRecDepth 100000 in
/-- What `start_conversion` does for every byte in ADCSRA: bit 6 becomes 1,
bits 7, 5, 3 and 2:0 are kept, bit 4 reads 0 afterwards whatever it was, the
register still holds a byte, and no other register is written. -/
theorem start_conversion_effect (s : Regs) (hs : s.ADCSRA < 256) :
    ((start_conversion s).ADCSRA < 256 ∧
      regBit (start_conversion s).ADCSRA 6 = 1 ∧
      regBit (start_conversion s).ADCSRA 7 = regBit s.ADCSRA 7 ∧
      regBit (start_conversion s).ADCSRA 5 = regBit s.ADCSRA 5 ∧
      regBit (start_conversion s).ADCSRA 3 = regBit s.ADCSRA 3 ∧
      regField (start_conversion s).ADCSRA 2 0 = regField s.ADCSRA 2 0 ∧
      regBit (start_conversion s).ADCSRA 4 = 0) ∧
    (start_conversion s).ADMUX = s.ADMUX ∧ (start_conversion s).ADCSRB = s.ADCSRB ∧
    (start_conversion s).DIDR0 = s.DIDR0 ∧ (start_conversion s).ADCL = s.ADCL ∧
    (start_conversion s).ADCH = s.ADCH := by
  have key : ∀ n, n < 256 →
      write_ADCSRA n ((n ||| 64) % 256) < 256 ∧
        regBit (write_ADCSRA n ((n ||| 64) % 256)) 6 = 1 ∧
        regBit (write_ADCSRA n ((n ||| 64) % 256)) 7 = regBit n 7 ∧
        regBit (write_ADCSRA n ((n ||| 64) % 256)) 5 = regBit n 5 ∧
        regBit (write_ADCSRA n ((n ||| 64) % 256)) 3 = regBit n 3 ∧
        regField (write_ADCSRA n ((n ||| 64) % 256)) 2 0 = regField n 2 0 ∧
        regBit (write_ADCSRA n ((n ||| 64) % 256)) 4 = 0 := by
    decide
  rw [start_conversion_eq]
  exact ⟨key _ hs, rfl, rfl, rfl, rfl, rfl⟩

/-- C16 as stated fails: with the completion flag pending
(ADCSRA = 0b10010111), `start_conversion` leaves ADCSRA = 0b11000111, so bit 6
is set as claimed but bit 4 went from 1 to 0 and is not as before the call. -/
theorem start_conversion_drops_pending_flag :
    regBit (⟨0, 0b10010111, 0, 0, 0, 0⟩ : Regs).ADCSRA 4 = 1 ∧
      (start_conversion ⟨0, 0b10010111, 0, 0, 0, 0⟩).ADCSRA = 0b11000111 ∧
      regBit (start_conversion ⟨0, 0b10010111, 0, 0, 0, 0⟩).ADCSRA 4 = 0 ∧
      regBit (start_conversion ⟨0, 0b10010111, 0, 0, 0, 0⟩).ADCSRA 4
        ≠ regBit (⟨0, 0b10010111, 0, 0, 0, 0⟩ : Regs).ADCSRA 4 := by
  decide

/-- C16, amended: for every byte in ADCSRA, after `start_conversion` bit 6 of
ADCSRA is 1, bits 7, 5, 3 and 2:0 of ADCSRA and the registers ADMUX, ADCSRB
and DIDR0 are as before the call, and the completion flag, bit 4, reads 0: a
flag left pending by an earlier conversion is cleared by the store. -/
theorem start_conversion_sets_adsc (s : Regs) (hs : s.ADCSRA < 256) :
    regBit (start_conversion s).ADCSRA 6 = 1 ∧
      regBit (start_conversion s).ADCSRA 7 = regBit s.ADCSRA 7 ∧
      regBit (start_conversion s).ADCSRA 5 = regBit s.ADCSRA 5 ∧
      regBit (start_conversion s).ADCSRA 3 = regBit s.ADCSRA 3 ∧
      regField (start_conversion s).ADCSRA 2 0 = regField s.ADCSRA 2 0 ∧
      regBit (start_conversion s).ADCSRA 4 = 0 ∧
      (start_conversion s).ADMUX = s.ADMUX ∧
      (start_conversion s).ADCSRB = s.ADCSRB ∧
      (start_conversion s).DIDR0 = s.DIDR0 :=
  have h := start_conversion_effect s hs
  ⟨h.1.2.1, h.1.2.2.1, h.1.2.2.2.1, h.1.2.2.2.2.1, h.1.2.2.2.2.2.1, h.1.2.2.2.2.2.2,
    h.2.1, h.2.2.1, h.2.2.2.1⟩

/-- Witness for C16 amended: flag pending, every other register non-zero. -/
theorem start_conversion_sets_adsc_witness :
    regBit (start_conversion ⟨0b01000010, 0b10010111, 5, 9, 0, 0⟩).ADCSRA 6 = 1 ∧
      regBit (start_conversion ⟨0b01000010, 0b10010111, 5, 9, 0, 0⟩).ADCSRA 4 = 0 ∧
      (start_conversion ⟨0b01000010, 0b10010111, 5, 9, 0, 0⟩).ADMUX = 0b01000010 :=
  have h := start_conversion_sets_adsc ⟨0b01000010, 0b10010111, 5, 9, 0, 0⟩ (by decide)
  ⟨h.1, h.2.2.2.2.2.1, h.2.2.2.2.2.2.1⟩

/-! ## The polling loop of `read_adc` -/

/-- The test `ADCSRA & (1 << ADIF)` is non-zero exactly when bit 4 is set. -/
theorem flag_test_iff (n : Nat) : n &&& 16 ≠ 0 ↔ regBit n 4 = 1 := by
  have h := Nat.and_two_pow n 4
  have hb : n.testBit 4 = decide (n / 2 ^ 4 % 2 = 1) := Nat.testBit_to_div_mod
  unfold regBit
  rw [show (16 : Nat) = 2 ^ 4 from rfl, h, hb]
  by_cases hc : n / 2 ^ 4 % 2 = 1
  · simp [hc]
  · simp [hc]

/-- The test `ADMUX & (1 << ADLAR)` is non-zero exactly when bit 5 is set. -/
theorem adlar_test_iff (n : Nat) :
    Int.land (n : Int) (1 <<< ADLAR) ≠ 0 ↔ regBit n 5 = 1 := by
  have h := Nat.and_two_pow n 5
  have hb : n.testBit 5 = decide (n / 2 ^ 5 % 2 = 1) := Nat.testBit_to_div_mod
  rw [show (1 : Int) <<< ADLAR = 1 <<< ((5 : Nat) : Int) from rfl, Int.one_shiftLeft,
    land_natCast, h, hb]
  unfold regBit
  by_cases hc : n / 2 ^ 5 % 2 = 1
  · simp [hc]
  · simp [hc]

/-- A poll that finds the flag clear returns false and stores nothing. -/
theorem is_conversion_complete_of_clear (s : Regs) (h : regBit s.ADCSRA 4 = 0) :
    is_conversion_complete s = (false, s) := by
  rw [is_conversion_complete_eq]
  have hn : ¬ (s.ADCSRA &&& 16 ≠ 0) := by
    intro hc
    have := (flag_test_iff _).1 hc
    omega
  rw [if_neg hn]

/-- A poll that finds the flag set returns true. -/
theorem is_conversion_complete_of_set (s : Regs) (h : regBit s.ADCSRA 4 = 1) :
    (is_conversion_complete s).1 = true := by
  rw [is_conversion_complete_eq, if_pos ((flag_test_iff _).2 h)]

/-- A poll writes ADCSRA only. -/
theorem is_conversion_complete_frame (s : Regs) :
    (is_conversion_complete s).2.ADMUX = s.ADMUX ∧
      (is_conversion_complete s).2.ADCSRB = s.ADCSRB ∧
      (is_conversion_complete s).2.DIDR0 = s.DIDR0 ∧
      (is_conversion_complete s).2.ADCL = s.ADCL ∧
      (is_conversion_complete s).2.ADCH = s.ADCH := by
  rw [is_conversion_complete_eq]
  split <;> exact ⟨rfl, rfl, rfl, rfl, rfl⟩

/-- While every poll finds the flag clear, the loop uses up any fuel. -/
theorem wait_complete_spins (hw : Nat → Regs → Regs) (s0 : Regs) :
    ∀ (fuel done : Nat),
      (∀ i, done < i → i ≤ done + fuel → regBit (hw_run hw s0 i).ADCSRA 4 = 0) →
      wait_complete hw fuel done (hw_run hw s0 done) = none := by
  intro fuel
  induction fuel with
  | zero =>
    intro done _
    rfl
  | succ fuel ih =>
    intro done h
    have h1 : regBit (hw_run hw s0 (done + 1)).ADCSRA 4 = 0 :=
      h (done + 1) (by omega) (by omega)
    have e : hw (done + 1) (hw_run hw s0 done) = hw_run hw s0 (done + 1) := rfl
    unfold wait_complete
    rw [e, is_conversion_complete_of_clear _ h1]
    simp only [Bool.false_eq_true, if_false]
    exact ih (done + 1) (fun i hi hj => h i (by omega) (by omega))

/-- The loop ends at the first poll that finds the flag set, when the fuel
reaches that far. -/
theorem wait_complete_first_flag (hw : Nat → Regs → Regs) (s0 : Regs) (k : Nat)
    (hset : regBit (hw_run hw s0 k).ADCSRA 4 = 1) :
    ∀ (fuel done : Nat), done < k → k ≤ done + fuel →
      (∀ i, done < i → i < k → regBit (hw_run hw s0 i).ADCSRA 4 = 0) →
      wait_complete hw fuel done (hw_run hw s0 done)
        = some (k, (is_conversion_complete (hw_run hw s0 k)).2) := by
  intro fuel
  induction fuel with
  | zero =>
    intro done h1 h2 _
    omega
  | succ fuel ih =>
    intro done h1 h2 h
    have e : hw (done + 1) (hw_run hw s0 done) = hw_run hw s0 (done + 1) := rfl
    unfold wait_complete
    rw [e]
    by_cases hk : done + 1 = k
    · rw [hk, is_conversion_complete_of_set _ hset]
      simp only [if_true]
    · have hc : regBit (hw_run hw s0 (done + 1)).ADCSRA 4 = 0 :=
        h (done + 1) (by omega) (by omega)
      rw [is_conversion_complete_of_clear _ hc]
      simp only [Bool.false_eq_true, if_false]
      exact ih (done + 1) (by omega) (by omega) (fun i hi hj => h i (by omega) hj)

/-- The loop is still spinning when the fuel ends before the first poll that
finds the flag set. -/
theorem wait_complete_short_fuel (hw : Nat → Regs → Regs) (s0 : Regs) (k fuel : Nat)
    (hclear : ∀ i, 1 ≤ i → i < k → regBit (hw_run hw s0 i).ADCSRA 4 = 0)
    (hfuel : fuel < k) : wait_complete hw fuel 0 s0 = none :=
  wait_complete_spins hw s0 fuel 0 (fun i hi hj => hclear i hi (by omega))

/-- The result of `read_adc` when the `k`-th poll is the first to find the
flag set and the fuel reaches that far. -/
theorem read_adc_of_first_flag (hw : Nat → Regs → Regs) (s : Regs) (k fuel : Nat)
    (hk : 1 ≤ k)
    (hclear : ∀ i, 1 ≤ i → i < k → regBit (hw_run hw (start_conversion s) i).ADCSRA 4 = 0)
    (hset : regBit (hw_run hw (start_conversion s) k).ADCSRA 4 = 1) (hfuel : k ≤ fuel) :
    read_adc hw fuel s =
      if regBit s.ADMUX 5 = 1 then
        some ⟨to_uint16 (hw_run hw (start_conversion s) k).ADCH, k, [ResultReg.ADCH],
          (is_conversion_complete (hw_run hw (start_conversion s) k)).2⟩
      else
        some ⟨to_uint16 (Int.lor (((hw_run hw (start_conversion s) k).ADCH : Int) <<< (8 : Int))
            (hw_run hw (start_conversion s) k).ADCL), k,
          [ResultReg.ADCL, ResultReg.ADCH],
          (is_conversion_complete (hw_run hw (start_conversion s) k)).2⟩ := by
  have hw1 := wait_complete_first_flag hw (start_conversion s) k hset fuel 0 (by omega)
    (by omega) (fun i hi hj => hclear i hi hj)
  have hw2 : wait_complete hw fuel 0 (start_conversion s)
      = some (k, (is_conversion_complete (hw_run hw (start_conversion s) k)).2) := hw1
  obtain ⟨_, _, _, fl, fh⟩ := is_conversion_complete_frame (hw_run hw (start_conversion s) k)
  unfold read_adc
  rw [hw2]
  by_cases ha : regBit s.ADMUX 5 = 1
  · have hd : decide (Int.land (s.ADMUX : Int) (1 <<< ADLAR) ≠ 0) = true :=
      decide_eq_true ((adlar_test_iff _).2 ha)
    simp only [hd, if_true, if_pos ha, read_result, fh, List.nil_append]
  · have hd : decide (Int.land (s.ADMUX : Int) (1 <<< ADLAR) ≠ 0) = false :=
      decide_eq_false (fun hc => ha ((adlar_test_iff _).1 hc))
    simp only [hd, Bool.false_eq_true, if_false, if_neg ha, read_result, fl, fh,
      List.nil_append, List.singleton_append]

/-- The call of `read_adc` has not returned when the fuel ends before the first
poll that finds the flag set. -/
theorem read_adc_short_fuel (hw : Nat → Regs → Regs) (s : Regs) (k fuel : Nat)
    (hclear : ∀ i, 1 ≤ i → i < k → regBit (hw_run hw (start_conversion s) i).ADCSRA 4 = 0)
    (hfuel : fuel < k) : read_adc hw fuel s = none := by
  unfold read_adc
  rw [wait_complete_short_fuel hw (start_conversion s) k fuel hclear hfuel]

/-! ## The simulated converter -/

/-- Storing a non-negative integer as `uint16_t` keeps its low sixteen bits. -/
theorem to_uint16_natCast (m : Nat) : to_uint16 (m : Int) = m % 65536 := by
  unfold to_uint16
  omega

/-- The value `(high << 8) | low` returned for two result bytes. -/
theorem to_uint16_assemble (high low : Nat) (hh : high < 256) (hl : low < 256) :
    to_uint16 (Int.lor ((high : Int) <<< (8 : Int)) (low : Int)) = high * 256 + low := by
  have e : (high : Int) <<< (8 : Int) = ((high <<< 8 : Nat) : Int) :=
    Int.shiftLeft_coe_nat high 8
  have hor : 2 ^ 8 * high + low = 2 ^ 8 * high ||| low :=
    Nat.mul_add_lt_is_or (by omega) high
  rw [e, lor_natCast, to_uint16_natCast, Nat.shiftLeft_eq, Nat.mul_comm high (2 ^ 8), ← hor]
  omega

/-- Before the poll at which the conversion finishes the hardware is idle. -/
theorem hw_run_conversion_before (k r : Nat) (s0 : Regs) :
    ∀ i, i < k → hw_run (hw_conversion k r) s0 i = s0 := by
  intro i
  induction i with
  | zero =>
    intro _
    rfl
  | succ i ih =>
    intro h
    have hne : ¬ (i + 1 = k) := by omega
    show hw_conversion k r (i + 1) (hw_run (hw_conversion k r) s0 i) = s0
    unfold hw_conversion
    rw [if_neg hne]
    exact ih (by omega)

/-- The `k`-th poll finds the registers of the finished conversion. -/
theorem hw_run_conversion_at (k r : Nat) (s0 : Regs) (hk : 1 ≤ k) :
    hw_run (hw_conversion k r) s0 k = complete_conversion r s0 := by
  obtain ⟨j, rfl⟩ : ∃ j, k = j + 1 := ⟨k - 1, by omega⟩
  have hb := hw_run_conversion_before (j + 1) r s0 j (by omega)
  show hw_conversion (j + 1) r (j + 1) (hw_run (hw_conversion (j + 1) r) s0 j) = _
  rw [hb]
  unfold hw_conversion
  rw [if_pos rfl]

/-- Idle hardware leaves the registers alone. -/
theorem hw_run_idle (s0 : Regs) : ∀ i, hw_run hw_idle s0 i = s0 := by
  intro i
  induction i with
  | zero => rfl
  | succ i ih =>
    show hw_idle (i + 1) (hw_run hw_idle s0 i) = s0
    unfold hw_idle
    exact ih

set_option maxRecDepth 100000 in
/-- A finished conversion raises the completion flag. -/
theorem complete_conversion_flag (r : Nat) (s : Regs) (hs : s.ADCSRA < 256) :
    regBit (complete_conversion r s).ADCSRA 4 = 1 := by
  have key : ∀ n, n < 256 →
      regBit (n - 64 * regBit n 6 + 16 * (1 - regBit n 4)) 4 = 1 := by
    decide
  exact key _ hs

/-- With the conversion finishing just before poll `k`, that poll is the first
to find the flag set, whatever the flag was when `read_adc` was called. -/
theorem conversion_first_flag (s : Regs) (k r : Nat) (hs : s.ADCSRA < 256) (hk : 1 ≤ k) :
    (∀ i, 1 ≤ i → i < k →
        regBit (hw_run (hw_conversion k r) (start_conversion s) i).ADCSRA 4 = 0) ∧
      regBit (hw_run (hw_conversion k r) (start_conversion s) k).ADCSRA 4 = 1 := by
  obtain ⟨⟨b0, _, _, _, _, _, b6⟩, _⟩ := start_conversion_effect s hs
  refine ⟨?_, ?_⟩
  · intro i _ hi
    rw [hw_run_conversion_before k r _ i hi]
    exact b6
  · rw [hw_run_conversion_at k r _ hk]
    exact complete_conversion_flag r _ b0

/-- The result registers the `k`-th poll finds after a conversion with result
`r`: left-justified when ADLAR is set, right-justified otherwise. -/
theorem conversion_result_regs (s : Regs) (k r : Nat) (hk : 1 ≤ k) :
    (hw_run (hw_conversion k r) (start_conversion s) k).ADCH
        = (if regBit s.ADMUX 5 = 1 then r / 4 % 256 else r / 256 % 256) ∧
      (hw_run (hw_conversion k r) (start_conversion s) k).ADCL
        = (if regBit s.ADMUX 5 = 1 then r % 4 * 64 else r % 256) := by
  rw [hw_run_conversion_at k r _ hk, start_conversion_eq]
  exact ⟨rfl, rfl⟩

/-! ## `read_adc` -/

/-- C11: with the alignment bit (bit 5 of ADMUX) set and a simulated conversion
with 10-bit result `r` that completes at some poll `k`, `read_adc` returns, it
returns the content of the high-byte result register and reads no other result
register, and the value is `r >> 2`, below 256; for `r = 0b1011001100` it is
`0b10110011` (0xB3). -/
theorem read_adc_left_returns_high_byte (s : Regs) (k fuel r : Nat)
    (hs : s.ADCSRA < 256) (hleft : regBit s.ADMUX 5 = 1) (hk : 1 ≤ k) (hfuel : k ≤ fuel)
    (hr : r < 1024) :
    (read_adc (hw_conversion k r) fuel s).map ReadResult.value = some (r >>> 2) ∧
      (read_adc (hw_conversion k r) fuel s).map (fun res => res.regs.ADCH)
        = some (r >>> 2) ∧
      (read_adc (hw_conversion k r) fuel s).map ReadResult.reads
        = some [ResultReg.ADCH] ∧
      r >>> 2 < 256 ∧
      (r = 0b1011001100 →
        (read_adc (hw_conversion k r) fuel s).map ReadResult.value = some 0b10110011) := by
  obtain ⟨hclear, hset⟩ := conversion_first_flag s k r hs hk
  obtain ⟨eh, _⟩ := conversion_result_regs s k r hk
  obtain ⟨_, _, _, _, fh⟩ :=
    is_conversion_complete_frame (hw_run (hw_conversion k r) (start_conversion s) k)
  have hsh : r >>> 2 = r / 4 := Nat.shiftRight_eq_div_pow r 2
  have hv : to_uint16 ((r >>> 2 : Nat) : Int) = r >>> 2 := by
    rw [to_uint16_natCast, hsh]
    omega
  have hh : (hw_run (hw_conversion k r) (start_conversion s) k).ADCH = r >>> 2 := by
    rw [eh, if_pos hleft, hsh]
    omega
  rw [read_adc_of_first_flag _ s k fuel hk hclear hset hfuel, if_pos hleft]
  simp only [Option.map_some', fh, hh, hv]
  refine ⟨trivial, trivial, trivial, ?_, ?_⟩
  · rw [hsh]
    omega
  · intro e
    rw [e]
    rfl

/-- Witness for C11: ADLAR set, result 0b1011001100 ready at the second poll. -/
theorem read_adc_left_returns_high_byte_witness :
    (read_adc (hw_conversion 2 0b1011001100) 5 ⟨0b01100010, 0b10000111, 0, 0, 0, 0⟩).map
      ReadResult.value = some 0b10110011 :=
  (read_adc_left_returns_high_byte ⟨0b01100010, 0b10000111, 0, 0, 0, 0⟩ 2 5 0b1011001100
    (by decide) (by decide) (by decide) (by decide) (by decide)).2.2.2.2 rfl

/-- C12 as stated fails: with ADLAR clear and the simulated result
0b1011001100, `read_adc` returns 0b1011001100 (0x2CC), not 0b0010110011
(0x0B3). -/
theorem read_adc_right_scenario_value :
    (read_adc (hw_conversion 1 0b1011001100) 1 ⟨0b01000010, 0b10000111, 0, 0, 0, 0⟩).map
        ReadResult.value = some 0b1011001100 ∧
      (read_adc (hw_conversion 1 0b1011001100) 1 ⟨0b01000010, 0b10000111, 0, 0, 0, 0⟩).map
        ReadResult.value ≠ some 0b0010110011 := by
  decide

/-- C12, amended: with the alignment bit clear and the simulated 10-bit result
0b1011001100 completing at some poll `k`, `read_adc` returns 0b1011001100
(0x2CC), the conversion result itself. -/
theorem read_adc_right_scenario (s : Regs) (k fuel : Nat) (hs : s.ADCSRA < 256)
    (hright : regBit s.ADMUX 5 = 0) (hk : 1 ≤ k) (hfuel : k ≤ fuel) :
    (read_adc (hw_conversion k 0b1011001100) fuel s).map ReadResult.value
      = some 0b1011001100 := by
  obtain ⟨hclear, hset⟩ := conversion_first_flag s k 0b1011001100 hs hk
  obtain ⟨eh, el⟩ := conversion_result_regs s k 0b1011001100 hk
  have hne : ¬ (regBit s.ADMUX 5 = 1) := by omega
  rw [read_adc_of_first_flag _ s k fuel hk hclear hset hfuel, if_neg hne, eh, el,
    if_neg hne, if_neg hne]
  simp only [Option.map_some']
  rw [to_uint16_assemble _ _ (Nat.mod_lt _ (by norm_num)) (Nat.mod_lt _ (by norm_num))]

/-- Witness for C12 amended: ADLAR clear, result ready at the third poll. -/
theorem read_adc_right_scenario_witness :
    (read_adc (hw_conversion 3 0b1011001100) 4 ⟨0b01000010, 0b10000111, 0, 0, 0, 0⟩).map
      ReadResult.value = some 0b1011001100 :=
  read_adc_right_scenario ⟨0b01000010, 0b10000111, 0, 0, 0, 0⟩ 3 4 (by decide) (by decide)
    (by decide) (by decide)

/-- C13: with the alignment bit clear and simulated hardware whose flag is first
seen at poll `k`, leaving the bytes `high` in ADCH and `low` in ADCL,
`read_adc` returns exactly `high * 256 + low`, a 16-bit value; when the two
registers hold a right-justified 10-bit result `r` (`high = r >> 8`,
`low = r mod 256`), `high` is below 4 and the value returned is `r`, below
1024. -/
theorem read_adc_right_assembles (hw : Nat → Regs → Regs) (s : Regs) (k fuel : Nat)
    (hright : regBit s.ADMUX 5 = 0) (hk : 1 ≤ k)
    (hclear : ∀ i, 1 ≤ i → i < k → regBit (hw_run hw (start_conversion s) i).ADCSRA 4 = 0)
    (hset : regBit (hw_run hw (start_conversion s) k).ADCSRA 4 = 1) (hfuel : k ≤ fuel)
    (hh : (hw_run hw (start_conversion s) k).ADCH < 256)
    (hl : (hw_run hw (start_conversion s) k).ADCL < 256) :
    (read_adc hw fuel s).map ReadResult.value
        = some ((hw_run hw (start_conversion s) k).ADCH * 256
            + (hw_run hw (start_conversion s) k).ADCL) ∧
      (hw_run hw (start_conversion s) k).ADCH * 256
          + (hw_run hw (start_conversion s) k).ADCL < 65536 ∧
      ∀ r, r < 1024 → (hw_run hw (start_conversion s) k).ADCH = r >>> 8 →
        (hw_run hw (start_conversion s) k).ADCL = r % 256 →
        (hw_run hw (start_conversion s) k).ADCH < 4 ∧
          (read_adc hw fuel s).map ReadResult.value = some r ∧ r < 1024 := by
  have hne : ¬ (regBit s.ADMUX 5 = 1) := by omega
  have hv : (read_adc hw fuel s).map ReadResult.value
      = some ((hw_run hw (start_conversion s) k).ADCH * 256
          + (hw_run hw (start_conversion s) k).ADCL) := by
    rw [read_adc_of_first_flag hw s k fuel hk hclear hset hfuel, if_neg hne]
    simp only [Option.map_some']
    rw [to_uint16_assemble _ _ hh hl]
  refine ⟨hv, by omega, ?_⟩
  intro r hr e1 e2
  have hsh : r >>> 8 = r / 256 := Nat.shiftRight_eq_div_pow r 8
  rw [hsh] at e1
  refine ⟨by omega, ?_, hr⟩
  rw [hv, e1, e2]
  congr 1
  omega

/-- Witness for C13: ADLAR clear, the converter delivers 0b1011001100 at the
second poll; the value returned is that result. -/
theorem read_adc_right_assembles_witness :
    (read_adc (hw_conversion 2 0b1011001100) 2 ⟨0b01000010, 0b10000111, 0, 0, 0, 0⟩).map
      ReadResult.value = some 0b1011001100 :=
  ((read_adc_right_assembles (hw_conversion 2 0b1011001100)
      ⟨0b01000010, 0b10000111, 0, 0, 0, 0⟩ 2 2 (by decide) (by decide)
      (by decide) (by decide) (by decide) (by decide) (by decide)).2.2
    0b1011001100 (by decide) (by decide) (by decide)).2.1

/-- C17: `read_adc` returns exactly when a poll sees the completion flag set.
Against simulated hardware `hw` under which the `k`-th poll (`k ≥ 1`) is the
first to find the flag set, the call returns once `k` polls are allowed, having
made exactly `k` polls, and has not returned while fewer than `k` polls are
allowed; against simulated hardware `hw0` under which no poll finds the flag
set, no number of polls completes the call. -/
theorem read_adc_returns_at_first_flag (hw hw0 : Nat → Regs → Regs) (s : Regs) (k : Nat)
    (hk : 1 ≤ k)
    (hclear : ∀ i, 1 ≤ i → i < k → regBit (hw_run hw (start_conversion s) i).ADCSRA 4 = 0)
    (hset : regBit (hw_run hw (start_conversion s) k).ADCSRA 4 = 1)
    (hnever : ∀ i, 1 ≤ i → regBit (hw_run hw0 (start_conversion s) i).ADCSRA 4 = 0) :
    (∀ fuel, k ≤ fuel → (read_adc hw fuel s).map ReadResult.polls = some k) ∧
      (∀ fuel, fuel < k → read_adc hw fuel s = none) ∧
      (∀ fuel, read_adc hw0 fuel s = none) := by
  refine ⟨?_, ?_, ?_⟩
  · intro fuel hfuel
    rw [read_adc_of_first_flag hw s k fuel hk hclear hset hfuel]
    split <;> rfl
  · intro fuel hfuel
    exact read_adc_short_fuel hw s k fuel hclear hfuel
  · intro fuel
    exact read_adc_short_fuel hw0 s (fuel + 1) fuel (fun i hi _ => hnever i hi) (by omega)

/-- Witness for C17: the converter finishes just before the third poll; three
polls complete the call, two do not, and against idle hardware a thousand
polls do not. -/
theorem read_adc_returns_at_first_flag_witness :
    (read_adc (hw_conversion 3 0b1011001100) 3 ⟨0b01000010, 0b10000111, 0, 0, 0, 0⟩).map
        ReadResult.polls = some 3 ∧
      read_adc (hw_conversion 3 0b1011001100) 2 ⟨0b01000010, 0b10000111, 0, 0, 0, 0⟩
        = none ∧
      read_adc hw_idle 1000 ⟨0b01000010, 0b10000111, 0, 0, 0, 0⟩ = none :=
  have h := read_adc_returns_at_first_flag (hw_conversion 3 0b1011001100) hw_idle
    ⟨0b01000010, 0b10000111, 0, 0, 0, 0⟩ 3 (by decide)
    (conversion_first_flag ⟨0b01000010, 0b10000111, 0, 0, 0, 0⟩ 3 0b1011001100
      (by decide) (by decide)).1
    (conversion_first_flag ⟨0b01000010, 0b10000111, 0, 0, 0, 0⟩ 3 0b1011001100
      (by decide) (by decide)).2
    (fun i _ => by rw [hw_run_idle]; decide)
  ⟨h.1 3 (by decide), h.2.1 2 (by decide), h.2.2 1000⟩

/-- C18: when the call returns, the right-aligned path has read the low-byte
register once and then the high-byte register once, and the left-aligned path
has read the high-byte register once and never the low-byte register. -/
theorem read_adc_result_register_reads (hw : Nat → Regs → Regs) (s : Regs) (k fuel : Nat)
    (hk : 1 ≤ k)
    (hclear : ∀ i, 1 ≤ i → i < k → regBit (hw_run hw (start_conversion s) i).ADCSRA 4 = 0)
    (hset : regBit (hw_run hw (start_conversion s) k).ADCSRA 4 = 1) (hfuel : k ≤ fuel) :
    (regBit s.ADMUX 5 = 0 →
        (read_adc hw fuel s).map ReadResult.reads
          = some [ResultReg.ADCL, ResultReg.ADCH]) ∧
      (regBit s.ADMUX 5 = 1 →
        (read_adc hw fuel s).map ReadResult.reads = some [ResultReg.ADCH] ∧
          ∀ l, (read_adc hw fuel s).map ReadResult.reads = some l →
            ResultReg.ADCL ∉ l) := by
  rw [read_adc_of_first_flag hw s k fuel hk hclear hset hfuel]
  refine ⟨?_, ?_⟩
  · intro h0
    have hne : ¬ (regBit s.ADMUX 5 = 1) := by omega
    rw [if_neg hne]
    rfl
  · intro h1
    rw [if_pos h1]
    refine ⟨rfl, ?_⟩
    intro l hl
    have e : [ResultReg.ADCH] = l := Option.some.inj hl
    rw [← e]
    decide

/-- Witness for C18: the right-aligned path, converter done at the second
poll. -/
theorem read_adc_result_register_reads_witness :
    (read_adc (hw_conversion 2 0b1011001100) 2 ⟨0b01000010, 0b10000111, 0, 0, 0, 0⟩).map
      ReadResult.reads = some [ResultReg.ADCL, ResultReg.ADCH] :=
  (read_adc_result_register_reads (hw_conversion 2 0b1011001100)
    ⟨0b01000010, 0b10000111, 0, 0, 0, 0⟩ 2 2 (by decide)
    (conversion_first_flag ⟨0b01000010, 0b10000111, 0, 0, 0, 0⟩ 2 0b1011001100
      (by decide) (by decide)).1
    (conversion_first_flag ⟨0b01000010, 0b10000111, 0, 0, 0, 0⟩ 2 0b1011001100
      (by decide) (by decide)).2
    (by decide)).1 (by decide)

/-! ## The masked field writers on arbitrary integers -/

set_option maxRecDepth 100000 in
/-- What `set_auto_trigger_source` does to ADCSRB for every byte and every
integer `src`: bits 2:0 become `src mod 8`, bits 7:3 are kept, and the register
still holds a byte. -/
theorem set_auto_trigger_source_effect (s : Regs) (src : trigger_source)
    (hs : s.ADCSRB < 256) :
    (set_auto_trigger_source src s).ADCSRB < 256 ∧
      (regField (set_auto_trigger_source src s).ADCSRB 2 0 : Int) = src % 8 ∧
      regField (set_auto_trigger_source src s).ADCSRB 7 3 = regField s.ADCSRB 7 3 := by
  have key : ∀ n, n < 256 → ∀ k, k < 8 →
      ((n &&& 0b11111000) ||| k) % 256 < 256 ∧
        regField (((n &&& 0b11111000) ||| k) % 256) 2 0 = k ∧
        regField (((n &&& 0b11111000) ||| k) % 256) 7 3 = regField n 7 3 := by
    decide
  have h0 : 0 ≤ src % 8 := Int.emod_nonneg _ (by norm_num)
  have h1 : src % 8 < 8 := Int.emod_lt_of_pos _ (by norm_num)
  obtain ⟨m, hm⟩ := Int.eq_ofNat_of_zero_le h0
  have hm8 : m < 8 := by omega
  rw [set_auto_trigger_source_eq, hm, Int.toNat_ofNat]
  obtain ⟨k0, k1, k2⟩ := key _ hs m hm8
  exact ⟨k0, by exact_mod_cast k1, k2⟩

/-- An integer that is none of the three enumerators falls through the
`switch` of `set_reference_voltage`: the register file is unchanged. -/
theorem set_reference_voltage_other (s : Regs) (v : ref_voltage)
    (hv : v ≠ INTERNAL_VOLTAGE ∧ v ≠ AREF ∧ v ≠ AVCC) :
    set_reference_voltage v s = s := by
  unfold set_reference_voltage
  rw [if_neg hv.1, if_neg hv.2.2, if_neg hv.2.1]

/-- C19, amended: for every integer `x` the parameter holds, the enumerators
and every other value alike, and every byte in the register written:
`set_analog_channel x` keeps ADMUX bits 7:4 and writes `x mod 16` into bits
3:0; `set_auto_trigger_source x` keeps ADCSRB bits 7:3 and writes `x mod 8`
into bits 2:0; `set_prescale x` writes `x mod 8` into ADCSRA bits 2:0, keeps
bits 7:5 and bit 3, and leaves the completion flag, bit 4, reading 0;
`set_reference_voltage x` with `x` none of the three enumerators changes
nothing. -/
theorem masked_writers_effect (s : Regs) (x : Int) (hm : s.ADMUX < 256)
    (ha : s.ADCSRA < 256) (hb : s.ADCSRB < 256) :
    ((regField (set_analog_channel x s).ADMUX 3 0 : Int) = x % 16 ∧
      regField (set_analog_channel x s).ADMUX 7 6 = regField s.ADMUX 7 6 ∧
      regBit (set_analog_channel x s).ADMUX 5 = regBit s.ADMUX 5 ∧
      regBit (set_analog_channel x s).ADMUX 4 = regBit s.ADMUX 4) ∧
    ((regField (set_auto_trigger_source x s).ADCSRB 2 0 : Int) = x % 8 ∧
      regField (set_auto_trigger_source x s).ADCSRB 7 3 = regField s.ADCSRB 7 3) ∧
    ((regField (set_prescale x s).ADCSRA 2 0 : Int) = x % 8 ∧
      regBit (set_prescale x s).ADCSRA 7 = regBit s.ADCSRA 7 ∧
      regBit (set_prescale x s).ADCSRA 6 = regBit s.ADCSRA 6 ∧
      regBit (set_prescale x s).ADCSRA 5 = regBit s.ADCSRA 5 ∧
      regBit (set_prescale x s).ADCSRA 3 = regBit s.ADCSRA 3 ∧
      regBit (set_prescale x s).ADCSRA 4 = 0) ∧
    ((x ≠ INTERNAL_VOLTAGE ∧ x ≠ AREF ∧ x ≠ AVCC) → set_reference_voltage x s = s) := by
  obtain ⟨_, c1, c2, c3, c4⟩ := set_analog_channel_effect s x hm
  obtain ⟨_, t1, t2⟩ := set_auto_trigger_source_effect s x hb
  obtain ⟨_, p1, p2, p3, p4, p5, p6⟩ := set_prescale_effect s x ha
  exact ⟨⟨c1, c2, c3, c4⟩, ⟨t1, t2⟩, ⟨p1, p2, p3, p4, p5, p6⟩,
    set_reference_voltage_other s x⟩

/-- Witness for C19 amended: the argument -5, outside every enumeration, with
the flag pending; the channel field becomes 11, the prescaler field 3 with the
flag reading 0, and the reference write changes nothing. -/
theorem masked_writers_effect_witness :
    (regField (set_analog_channel (-5) ⟨0b01100010, 0b10010111, 0b01000101, 0, 0, 0⟩).ADMUX
        3 0 : Int) = 11 ∧
      (regField (set_prescale (-5) ⟨0b01100010, 0b10010111, 0b01000101, 0, 0, 0⟩).ADCSRA
        2 0 : Int) = 3 ∧
      regBit (set_prescale (-5) ⟨0b01100010, 0b10010111, 0b01000101, 0, 0, 0⟩).ADCSRA 4
        = 0 ∧
      set_reference_voltage (-5) ⟨0b01100010, 0b10010111, 0b01000101, 0, 0, 0⟩
        = ⟨0b01100010, 0b10010111, 0b01000101, 0, 0, 0⟩ :=
  have h := masked_writers_effect ⟨0b01100010, 0b10010111, 0b01000101, 0, 0, 0⟩ (-5)
    (by decide) (by decide) (by decide)
  ⟨h.1.1, h.2.2.1.1, h.2.2.1.2.2.2.2.2, h.2.2.2 (by decide)⟩

/-- C19 as stated fails: with the completion flag pending
(ADCSRA = 0b10010111), `set_prescale 11`, an argument outside the enumeration,
writes 11 mod 8 = 3 into bits 2:0 but leaves ADCSRA = 0b10000011, so bits 7:3
went from 0b10010 to 0b10000 and are not unchanged. -/
theorem set_prescale_any_integer_drops_pending_flag :
    regField (⟨0, 0b10010111, 0, 0, 0, 0⟩ : Regs).ADCSRA 7 3 = 0b10010 ∧
      (set_prescale 11 ⟨0, 0b10010111, 0, 0, 0, 0⟩).ADCSRA = 0b10000011 ∧
      regField (set_prescale 11 ⟨0, 0b10010111, 0, 0, 0, 0⟩).ADCSRA 2 0 = 3 ∧
      regField (set_prescale 11 ⟨0, 0b10010111, 0, 0, 0, 0⟩).ADCSRA 7 3 = 0b10000 ∧
      regField (set_prescale 11 ⟨0, 0b10010111, 0, 0, 0, 0⟩).ADCSRA 7 3
        ≠ regField (⟨0, 0b10010111, 0, 0, 0, 0⟩ : Regs).ADCSRA 7 3 := by
  decide

/-! ## Idempotence and commutation of the configuration setters -/

/-- For every integer `v`, `set_reference_voltage v` keeps ADMUX a byte and does
not write ADCSRA. -/
theorem set_reference_voltage_byte (v : ref_voltage) (s : Regs) (hm : s.ADMUX < 256) :
    (set_reference_voltage v s).ADMUX < 256 ∧
      (set_reference_voltage v s).ADCSRA = s.ADCSRA := by
  rw [set_reference_voltage_eq]
  refine ⟨?_, rfl⟩
  show (if v = INTERNAL_VOLTAGE then ((s.ADMUX &&& 0b00111111) ||| 0b11000000) % 256
    else if v = AVCC then ((s.ADMUX &&& 0b00111111) ||| 0b01000000) % 256
    else if v = AREF then (s.ADMUX &&& 0b00111111) % 256 else s.ADMUX) < 256
  split_ifs
  · exact Nat.mod_lt _ (by norm_num)
  · exact Nat.mod_lt _ (by norm_num)
  · exact Nat.mod_lt _ (by norm_num)
  · exact hm

set_option maxRecDepth 100000 in
/-- Writing the same reference voltage twice is writing it once. -/
theorem set_reference_voltage_idem (v : ref_voltage) (s : Regs) (hm : s.ADMUX < 256) :
    set_reference_voltage v (set_reference_voltage v s) = set_reference_voltage v s := by
  have key : ∀ n, n < 256 →
      ((((n &&& 0b00111111) ||| 0b11000000) % 256 &&& 0b00111111) ||| 0b11000000) % 256
          = ((n &&& 0b00111111) ||| 0b11000000) % 256 ∧
        ((((n &&& 0b00111111) ||| 0b01000000) % 256 &&& 0b00111111) ||| 0b01000000) % 256
          = ((n &&& 0b00111111) ||| 0b01000000) % 256 ∧
        ((n &&& 0b00111111) % 256 &&& 0b00111111) % 256 = (n &&& 0b00111111) % 256 := by
    decide
  obtain ⟨k1, k2, k3⟩ := key _ hm
  by_cases h1 : v = INTERNAL_VOLTAGE
  · simp only [set_reference_voltage_eq, if_pos h1]
    rw [k1]
  · by_cases h2 : v = AVCC
    · simp only [set_reference_voltage_eq, if_neg h1, if_pos h2]
      rw [k2]
    · by_cases h3 : v = AREF
      · simp only [set_reference_voltage_eq, if_neg h1, if_neg h2, if_pos h3]
        rw [k3]
      · simp only [set_reference_voltage_eq, if_neg h1, if_neg h2, if_neg h3]

set_option maxRecDepth 100000 in
/-- Writing the same alignment twice is writing it once. -/
theorem set_bit_alignment_idem (a : alignment) (s : Regs) (hm : s.ADMUX < 256) :
    set_bit_alignment a (set_bit_alignment a s) = set_bit_alignment a s := by
  have key : ∀ n, n < 256 →
      ((n ||| 32) % 256 ||| 32) % 256 = (n ||| 32) % 256 ∧
        ((n ^^^ (n &&& 32)) % 256 ^^^ ((n ^^^ (n &&& 32)) % 256 &&& 32)) % 256
          = (n ^^^ (n &&& 32)) % 256 := by
    decide
  obtain ⟨k1, k2⟩ := key _ hm
  by_cases h : a = LEFT
  · simp only [set_bit_alignment_eq, if_pos h]
    rw [k1]
  · simp only [set_bit_alignment_eq, if_neg h]
    rw [k2]

set_option maxRecDepth 100000 in
/-- Selecting the same channel twice is selecting it once. -/
theorem set_analog_channel_idem (c : channel) (s : Regs) (hm : s.ADMUX < 256) :
    set_analog_channel c (set_analog_channel c s) = set_analog_channel c s := by
  have key : ∀ n, n < 256 → ∀ k, k < 16 →
      ((((n &&& 0b11110000) ||| k) % 256 &&& 0b11110000) ||| k) % 256
        = ((n &&& 0b11110000) ||| k) % 256 := by
    decide
  have h0 : 0 ≤ c % 16 := Int.emod_nonneg _ (by norm_num)
  have h1 : c % 16 < 16 := Int.emod_lt_of_pos _ (by norm_num)
  obtain ⟨m, hm16⟩ := Int.eq_ofNat_of_zero_le h0
  have hlt : m < 16 := by omega
  simp only [set_analog_channel_eq, hm16, Int.toNat_ofNat]
  rw [key _ hm m hlt]

set_option maxRecDepth 100000 in
/-- Writing the same prescaler twice is writing it once: the first store already
leaves bit 4 of ADCSRA clear. -/
theorem set_prescale_idem (p : prescale) (s : Regs) (ha : s.ADCSRA < 256) :
    set_prescale p (set_prescale p s) = set_prescale p s := by
  have key : ∀ n, n < 256 → ∀ k, k < 8 →
      write_ADCSRA (write_ADCSRA n (((n &&& 0b11111000) ||| k) % 256))
          (((write_ADCSRA n (((n &&& 0b11111000) ||| k) % 256) &&& 0b11111000) ||| k) % 256)
        = write_ADCSRA n (((n &&& 0b11111000) ||| k) % 256) := by
    decide
  have h0 : 0 ≤ p % 8 := Int.emod_nonneg _ (by norm_num)
  have h1 : p % 8 < 8 := Int.emod_lt_of_pos _ (by norm_num)
  obtain ⟨m, hm8⟩ := Int.eq_ofNat_of_zero_le h0
  have hlt : m < 8 := by omega
  simp only [set_prescale_eq, store_ADCSRA, hm8, Int.toNat_ofNat]
  rw [key _ ha m hlt]

set_option maxRecDepth 100000 in
/-- Writing the same enable bit twice is writing it once. -/
theorem enable_adc_idem (b : Bool) (s : Regs) (ha : s.ADCSRA < 256) :
    enable_adc b (enable_adc b s) = enable_adc b s := by
  have key : ∀ n, n < 256 →
      write_ADCSRA (write_ADCSRA n ((n ||| 128) % 256))
          ((write_ADCSRA n ((n ||| 128) % 256) ||| 128) % 256)
        = write_ADCSRA n ((n ||| 128) % 256) ∧
      write_ADCSRA (write_ADCSRA n ((n ^^^ (n &&& 128)) % 256))
          ((write_ADCSRA n ((n ^^^ (n &&& 128)) % 256)
            ^^^ (write_ADCSRA n ((n ^^^ (n &&& 128)) % 256) &&& 128)) % 256)
        = write_ADCSRA n ((n ^^^ (n &&& 128)) % 256) := by
    decide
  obtain ⟨k1, k2⟩ := key _ ha
  cases b
  · simp only [enable_adc_eq, store_ADCSRA, Bool.false_eq_true, if_false]
    rw [k2]
  · simp only [enable_adc_eq, store_ADCSRA, if_true]
    rw [k1]

set_option maxRecDepth 100000 in
/-- The reference field and the alignment bit are written independently. -/
theorem set_reference_voltage_comm_alignment (v : ref_voltage) (a : alignment) (s : Regs)
    (hm : s.ADMUX < 256) :
    set_reference_voltage v (set_bit_alignment a s)
      = set_bit_alignment a (set_reference_voltage v s) := by
  have key : ∀ n, n < 256 →
      ((((n ||| 32) % 256 &&& 0b00111111) ||| 0b11000000) % 256
          = (((n &&& 0b00111111) ||| 0b11000000) % 256 ||| 32) % 256 ∧
        (((n ||| 32) % 256 &&& 0b00111111) ||| 0b01000000) % 256
          = (((n &&& 0b00111111) ||| 0b01000000) % 256 ||| 32) % 256 ∧
        ((n ||| 32) % 256 &&& 0b00111111) % 256
          = ((n &&& 0b00111111) % 256 ||| 32) % 256) ∧
      ((((n ^^^ (n &&& 32)) % 256 &&& 0b00111111) ||| 0b11000000) % 256
          = (((n &&& 0b00111111) ||| 0b11000000) % 256
              ^^^ (((n &&& 0b00111111) ||| 0b11000000) % 256 &&& 32)) % 256 ∧
        (((n ^^^ (n &&& 32)) % 256 &&& 0b00111111) ||| 0b01000000) % 256
          = (((n &&& 0b00111111) ||| 0b01000000) % 256
              ^^^ (((n &&& 0b00111111) ||| 0b01000000) % 256 &&& 32)) % 256 ∧
        ((n ^^^ (n &&& 32)) % 256 &&& 0b00111111) % 256
          = ((n &&& 0b00111111) % 256 ^^^ ((n &&& 0b00111111) % 256 &&& 32)) % 256) := by
    decide
  obtain ⟨⟨l1, l2, l3⟩, ⟨r1, r2, r3⟩⟩ := key _ hm
  by_cases h : a = LEFT
  · by_cases h1 : v = INTERNAL_VOLTAGE
    · simp only [set_reference_voltage_eq, set_bit_alignment_eq, if_pos h, if_pos h1]
      rw [l1]
    · by_cases h2 : v = AVCC
      · simp only [set_reference_voltage_eq, set_bit_alignment_eq, if_pos h, if_neg h1,
          if_pos h2]
        rw [l2]
      · by_cases h3 : v = AREF
        · simp only [set_reference_voltage_eq, set_bit_alignment_eq, if_pos h, if_neg h1,
            if_neg h2, if_pos h3]
          rw [l3]
        · simp only [set_reference_voltage_eq, set_bit_alignment_eq, if_pos h, if_neg h1,
            if_neg h2, if_neg h3]
  · by_cases h1 : v = INTERNAL_VOLTAGE
    · simp only [set_reference_voltage_eq, set_bit_alignment_eq, if_neg h, if_pos h1]
      rw [r1]
    · by_cases h2 : v = AVCC
      · simp only [set_reference_voltage_eq, set_bit_alignment_eq, if_neg h, if_neg h1,
          if_pos h2]
        rw [r2]
      · by_cases h3 : v = AREF
        · simp only [set_reference_voltage_eq, set_bit_alignment_eq, if_neg h, if_neg h1,
            if_neg h2, if_pos h3]
          rw [r3]
        · simp only [set_reference_voltage_eq, set_bit_alignment_eq, if_neg h, if_neg h1,
            if_neg h2, if_neg h3]

set_option maxRecDepth 100000 in
/-- The reference field and the channel field are written independently. -/
theorem set_reference_voltage_comm_channel (v : ref_voltage) (c : channel) (s : Regs)
    (hm : s.ADMUX < 256) :
    set_reference_voltage v (set_analog_channel c s)
      = set_analog_channel c (set_reference_voltage v s) := by
  have key1 : ∀ n, n < 256 → ∀ k, k < 16 →
      ((((n &&& 0b11110000) ||| k) % 256 &&& 0b00111111) ||| 0b11000000) % 256
        = ((((n &&& 0b00111111) ||| 0b11000000) % 256 &&& 0b11110000) ||| k) % 256 := by
    decide
  have key2 : ∀ n, n < 256 → ∀ k, k < 16 →
      ((((n &&& 0b11110000) ||| k) % 256 &&& 0b00111111) ||| 0b01000000) % 256
        = ((((n &&& 0b00111111) ||| 0b01000000) % 256 &&& 0b11110000) ||| k) % 256 := by
    decide
  have key3 : ∀ n, n < 256 → ∀ k, k < 16 →
      (((n &&& 0b11110000) ||| k) % 256 &&& 0b00111111) % 256
        = (((n &&& 0b00111111) % 256 &&& 0b11110000) ||| k) % 256 := by
    decide
  have h0 : 0 ≤ c % 16 := Int.emod_nonneg _ (by norm_num)
  have hlt16 : c % 16 < 16 := Int.emod_lt_of_pos _ (by norm_num)
  obtain ⟨m, hm16⟩ := Int.eq_ofNat_of_zero_le h0
  have hlt : m < 16 := by omega
  by_cases h1 : v = INTERNAL_VOLTAGE
  · simp only [set_reference_voltage_eq, set_analog_channel_eq, if_pos h1, hm16,
      Int.toNat_ofNat]
    rw [key1 _ hm m hlt]
  · by_cases h2 : v = AVCC
    · simp only [set_reference_voltage_eq, set_analog_channel_eq, if_neg h1, if_pos h2, hm16,
        Int.toNat_ofNat]
      rw [key2 _ hm m hlt]
    · by_cases h3 : v = AREF
      · simp only [set_reference_voltage_eq, set_analog_channel_eq, if_neg h1, if_neg h2,
          if_pos h3, hm16, Int.toNat_ofNat]
        rw [key3 _ hm m hlt]
      · simp only [set_reference_voltage_eq, set_analog_channel_eq, if_neg h1, if_neg h2,
          if_neg h3]

set_option maxRecDepth 100000 in
/-- The alignment bit and the channel field are written independently. -/
theorem set_bit_alignment_comm_channel (a : alignment) (c : channel) (s : Regs)
    (hm : s.ADMUX < 256) :
    set_bit_alignment a (set_analog_channel c s)
      = set_analog_channel c (set_bit_alignment a s) := by
  have key1 : ∀ n, n < 256 → ∀ k, k < 16 →
      (((n &&& 0b11110000) ||| k) % 256 ||| 32) % 256
        = ((((n ||| 32) % 256) &&& 0b11110000) ||| k) % 256 := by
    decide
  have key2 : ∀ n, n < 256 → ∀ k, k < 16 →
      (((n &&& 0b11110000) ||| k) % 256 ^^^ (((n &&& 0b11110000) ||| k) % 256 &&& 32)) % 256
        = ((((n ^^^ (n &&& 32)) % 256) &&& 0b11110000) ||| k) % 256 := by
    decide
  have h0 : 0 ≤ c % 16 := Int.emod_nonneg _ (by norm_num)
  have hlt16 : c % 16 < 16 := Int.emod_lt_of_pos _ (by norm_num)
  obtain ⟨m, hm16⟩ := Int.eq_ofNat_of_zero_le h0
  have hlt : m < 16 := by omega
  by_cases h : a = LEFT
  · simp only [set_bit_alignment_eq, set_analog_channel_eq, if_pos h, hm16, Int.toNat_ofNat]
    rw [key1 _ hm m hlt]
  · simp only [set_bit_alignment_eq, set_analog_channel_eq, if_neg h, hm16, Int.toNat_ofNat]
    rw [key2 _ hm m hlt]

set_option maxRecDepth 100000 in
/-- The prescaler field and the enable bit are written independently; either
order leaves bit 4 of ADCSRA clear. -/
theorem set_prescale_comm_enable (p : prescale) (b : Bool) (s : Regs)
    (ha : s.ADCSRA < 256) :
    set_prescale p (enable_adc b s) = enable_adc b (set_prescale p s) := by
  have key1 : ∀ n, n < 256 → ∀ k, k < 8 →
      write_ADCSRA (write_ADCSRA n ((n ||| 128) % 256))
          (((write_ADCSRA n ((n ||| 128) % 256) &&& 0b11111000) ||| k) % 256)
        = write_ADCSRA (write_ADCSRA n (((n &&& 0b11111000) ||| k) % 256))
          ((write_ADCSRA n (((n &&& 0b11111000) ||| k) % 256) ||| 128) % 256) := by
    decide
  have key2 : ∀ n, n < 256 → ∀ k, k < 8 →
      write_ADCSRA (write_ADCSRA n ((n ^^^ (n &&& 128)) % 256))
          (((write_ADCSRA n ((n ^^^ (n &&& 128)) % 256) &&& 0b11111000) ||| k) % 256)
        = write_ADCSRA (write_ADCSRA n (((n &&& 0b11111000) ||| k) % 256))
          ((write_ADCSRA n (((n &&& 0b11111000) ||| k) % 256)
            ^^^ (write_ADCSRA n (((n &&& 0b11111000) ||| k) % 256) &&& 128)) % 256) := by
    decide
  have h0 : 0 ≤ p % 8 := Int.emod_nonneg _ (by norm_num)
  have h1 : p % 8 < 8 := Int.emod_lt_of_pos _ (by norm_num)
  obtain ⟨m, hm8⟩ := Int.eq_ofNat_of_zero_le h0
  have hlt : m < 8 := by omega
  cases b
  · simp only [set_prescale_eq, enable_adc_eq, store_ADCSRA, Bool.false_eq_true, if_false,
      hm8, Int.toNat_ofNat]
    rw [key2 _ ha m hlt]
  · simp only [set_prescale_eq, enable_adc_eq, store_ADCSRA, if_true, hm8, Int.toNat_ofNat]
    rw [key1 _ ha m hlt]

/-- A setter of ADMUX and a setter of ADCSRA write different registers. -/
theorem admux_setters_comm_adcsra_setters (v : ref_voltage) (a : alignment) (c : channel)
    (p : prescale) (b : Bool) (s : Regs) :
    set_reference_voltage v (set_prescale p s) = set_prescale p (set_reference_voltage v s) ∧
      set_reference_voltage v (enable_adc b s) = enable_adc b (set_reference_voltage v s) ∧
      set_bit_alignment a (set_prescale p s) = set_prescale p (set_bit_alignment a s) ∧
      set_bit_alignment a (enable_adc b s) = enable_adc b (set_bit_alignment a s) ∧
      set_analog_channel c (set_prescale p s) = set_prescale p (set_analog_channel c s) ∧
      set_analog_channel c (enable_adc b s) = enable_adc b (set_analog_channel c s) := by
  simp only [set_reference_voltage_eq, set_bit_alignment_eq, set_analog_channel_eq,
    set_prescale_eq, enable_adc_eq, store_ADCSRA, and_self]

/-- Each of the five setters keeps ADMUX and ADCSRA bytes. -/
theorem setters_keep_bytes (v : ref_voltage) (a : alignment) (c : channel) (p : prescale)
    (b : Bool) (s : Regs) (hs : s.ADMUX < 256 ∧ s.ADCSRA < 256) :
    ((set_reference_voltage v s).ADMUX < 256 ∧ (set_reference_voltage v s).ADCSRA < 256) ∧
      ((set_bit_alignment a s).ADMUX < 256 ∧ (set_bit_alignment a s).ADCSRA < 256) ∧
      ((set_analog_channel c s).ADMUX < 256 ∧ (set_analog_channel c s).ADCSRA < 256) ∧
      ((set_prescale p s).ADMUX < 256 ∧ (set_prescale p s).ADCSRA < 256) ∧
      ((enable_adc b s).ADMUX < 256 ∧ (enable_adc b s).ADCSRA < 256) := by
  obtain ⟨hm, ha⟩ := hs
  obtain ⟨r1, r2⟩ := set_reference_voltage_byte v s hm
  have a1 := (set_bit_alignment_effect s a hm).1
  have a2 : (set_bit_alignment a s).ADCSRA = s.ADCSRA := by rw [set_bit_alignment_eq]
  have c1 := (set_analog_channel_effect s c hm).1
  have c2 : (set_analog_channel c s).ADCSRA = s.ADCSRA := by rw [set_analog_channel_eq]
  have p1 := (set_prescale_effect s p ha).1
  have p2 : (set_prescale p s).ADMUX = s.ADMUX := by rw [set_prescale_eq]; rfl
  have e1 := (enable_adc_effect s b ha).1
  have e2 : (enable_adc b s).ADMUX = s.ADMUX := by rw [enable_adc_eq]; rfl
  exact ⟨⟨r1, by rw [r2]; exact ha⟩, ⟨a1, by rw [a2]; exact ha⟩, ⟨c1, by rw [c2]; exact ha⟩,
    ⟨by rw [p2]; exact hm, p1⟩, ⟨by rw [e2]; exact hm, e1⟩⟩

/-- Running a list of steps that keep an invariant and commute pairwise under
it gives the same state for every order of the list. -/
theorem foldl_perm_of_commute {α : Type} (P : α → Prop) {l1 l2 : List (α → α)}
    (hp : l1.Perm l2) :
    (∀ f ∈ l1, ∀ s, P s → P (f s)) →
    (∀ f ∈ l1, ∀ g ∈ l1, ∀ s, P s → f (g s) = g (f s)) →
    ∀ s, P s → l1.foldl (fun st f => f st) s = l2.foldl (fun st f => f st) s := by
  induction hp with
  | nil =>
    intro _ _ s _
    rfl
  | cons x _ ih =>
    intro hpres hcomm s hs
    simp only [List.foldl_cons]
    exact ih (fun f hf => hpres f (List.mem_cons_of_mem _ hf))
      (fun f hf g hg => hcomm f (List.mem_cons_of_mem _ hf) g (List.mem_cons_of_mem _ hg))
      (x s) (hpres x (List.mem_cons_self _ _) s hs)
  | swap x y l =>
    intro _ hcomm s hs
    simp only [List.foldl_cons]
    have hx : x ∈ y :: x :: l := List.mem_cons_of_mem _ (List.mem_cons_self _ _)
    have hy : y ∈ y :: x :: l := List.mem_cons_self _ _
    rw [hcomm x hx y hy s hs]
  | trans h12 _ ih1 ih2 =>
    intro hpres hcomm s hs
    rw [ih1 hpres hcomm s hs]
    exact ih2 (fun f hf => hpres f (h12.mem_iff.2 hf))
      (fun f hf g hg => hcomm f (h12.mem_iff.2 hf) g (h12.mem_iff.2 hg)) s hs

/-- C20: for every register file of bytes and all arguments, each of
`set_reference_voltage`, `set_bit_alignment`, `set_analog_channel`,
`set_prescale` and `enable_adc` applied twice with the same argument gives the
state it gives applied once; any two different ones of them give the same
state in either order; and the five steps of `adc_init`, run in any order, give
the state `adc_init` gives. -/
theorem setters_idempotent_and_commute (s : Regs) (v : ref_voltage) (a : alignment)
    (c : channel) (p : prescale) (b : Bool) (hm : s.ADMUX < 256) (ha : s.ADCSRA < 256) :
    (set_reference_voltage v (set_reference_voltage v s) = set_reference_voltage v s ∧
      set_bit_alignment a (set_bit_alignment a s) = set_bit_alignment a s ∧
      set_analog_channel c (set_analog_channel c s) = set_analog_channel c s ∧
      set_prescale p (set_prescale p s) = set_prescale p s ∧
      enable_adc b (enable_adc b s) = enable_adc b s) ∧
    (set_reference_voltage v (set_bit_alignment a s)
        = set_bit_alignment a (set_reference_voltage v s) ∧
      set_reference_voltage v (set_analog_channel c s)
        = set_analog_channel c (set_reference_voltage v s) ∧
      set_reference_voltage v (set_prescale p s)
        = set_prescale p (set_reference_voltage v s) ∧
      set_reference_voltage v (enable_adc b s) = enable_adc b (set_reference_voltage v s) ∧
      set_bit_alignment a (set_analog_channel c s)
        = set_analog_channel c (set_bit_alignment a s) ∧
      set_bit_alignment a (set_prescale p s) = set_prescale p (set_bit_alignment a s) ∧
      set_bit_alignment a (enable_adc b s) = enable_adc b (set_bit_alignment a s) ∧
      set_analog_channel c (set_prescale p s) = set_prescale p (set_analog_channel c s) ∧
      set_analog_channel c (enable_adc b s) = enable_adc b (set_analog_channel c s) ∧
      set_prescale p (enable_adc b s) = enable_adc b (set_prescale p s)) ∧
    (∀ l : List (Regs → Regs),
      l.Perm [set_reference_voltage v, set_bit_alignment a, set_prescale p,
        set_analog_channel c, enable_adc true] →
      l.foldl (fun st f => f st) s = adc_init v a p c s) := by
  obtain ⟨x1, x2, x3, x4, x5, x6⟩ := admux_setters_comm_adcsra_setters v a c p b s
  refine ⟨⟨set_reference_voltage_idem v s hm, set_bit_alignment_idem a s hm,
    set_analog_channel_idem c s hm, set_prescale_idem p s ha, enable_adc_idem b s ha⟩,
    ⟨set_reference_voltage_comm_alignment v a s hm,
      set_reference_voltage_comm_channel v c s hm, x1, x2,
      set_bit_alignment_comm_channel a c s hm, x3, x4, x5, x6,
      set_prescale_comm_enable p b s ha⟩, ?_⟩
  intro l hl
  have hpres : ∀ f ∈ [set_reference_voltage v, set_bit_alignment a, set_prescale p,
      set_analog_channel c, enable_adc true],
      ∀ t : Regs, (t.ADMUX < 256 ∧ t.ADCSRA < 256) → ((f t).ADMUX < 256 ∧ (f t).ADCSRA < 256) := by
    intro f hf t ht
    obtain ⟨k1, k2, k3, k4, k5⟩ := setters_keep_bytes v a c p true t ht
    simp only [List.mem_cons, List.mem_singleton, List.not_mem_nil, or_false] at hf
    rcases hf with rfl | rfl | rfl | rfl | rfl
    · exact k1
    · exact k2
    · exact k4
    · exact k3
    · exact k5
  have hcomm : ∀ f ∈ [set_reference_voltage v, set_bit_alignment a, set_prescale p,
      set_analog_channel c, enable_adc true],
      ∀ g ∈ [set_reference_voltage v, set_bit_alignment a, set_prescale p,
        set_analog_channel c, enable_adc true],
      ∀ t : Regs, (t.ADMUX < 256 ∧ t.ADCSRA < 256) → f (g t) = g (f t) := by
    intro f hf g hg t ht
    obtain ⟨tm, ta⟩ := ht
    obtain ⟨y1, y2, y3, y4, _, _⟩ := admux_setters_comm_adcsra_setters v a c p true t
    have ra := set_reference_voltage_comm_alignment v a t tm
    have rc := set_reference_voltage_comm_channel v c t tm
    have ac := set_bit_alignment_comm_channel a c t tm
    have pe := set_prescale_comm_enable p true t ta
    simp only [List.mem_cons, List.mem_singleton, List.not_mem_nil, or_false] at hf hg
    rcases hf with rfl | rfl | rfl | rfl | rfl <;>
      rcases hg with rfl | rfl | rfl | rfl | rfl <;>
      first
        | rfl
        | exact ra | exact ra.symm | exact rc | exact rc.symm | exact ac | exact ac.symm
        | exact pe | exact pe.symm | exact y1 | exact y1.symm | exact y2 | exact y2.symm
        | exact y3 | exact y3.symm | exact y4 | exact y4.symm
  have h := foldl_perm_of_commute (fun t : Regs => t.ADMUX < 256 ∧ t.ADCSRA < 256) hl.symm
    hpres hcomm s ⟨hm, ha⟩
  rw [← h]
  rfl

/-- Witness for C20: with the flag pending and every ADMUX bit set, the five
steps of `adc_init` run in the reverse order give the state `adc_init` gives. -/
theorem setters_idempotent_and_commute_witness :
    [enable_adc true, set_analog_channel ADC2, set_prescale P_8, set_bit_alignment RIGHT,
        set_reference_voltage AVCC].foldl (fun st f => f st)
        ⟨0b11111111, 0b10010111, 0, 0, 0, 0⟩
      = adc_init AVCC RIGHT P_8 ADC2 ⟨0b11111111, 0b10010111, 0, 0, 0, 0⟩ :=
  (setters_idempotent_and_commute ⟨0b11111111, 0b10010111, 0, 0, 0, 0⟩ AVCC RIGHT ADC2 P_8
    true (by decide) (by decide)).2.2 _
    (List.reverse_perm [set_reference_voltage AVCC, set_bit_alignment RIGHT, set_prescale P_8,
      set_analog_channel ADC2, enable_adc true])

end ModAdc
